import Mathlib

/-!
Verification of the LabRobots liquid-handling protocol scripts.

Each protocol script is shallowly embedded: the arithmetic and branching of
the Python sources is translated into executable Lean definitions over exact
rational arithmetic, and the sequence of pipetting commands a script issues
is modelled as a list of operations.  The theorems at the end of the file
settle the claims about the scripts.

Rational arithmetic from the core library is marked semireducible so that
concrete traces evaluate inside the kernel.
-/

attribute [local semireducible] Rat.add Rat.mul Rat.sub Rat.inv Rat.ofScientific

/-! ### Definitions -/

namespace LabRobots

/-- numpy.arange(start, stop, step): the arithmetic progression
start, start + step, start + 2*step, ... of length
max(ceil((stop - start)/step), 0). -/
def npArange (start stop step : ℚ) : List ℚ :=
  (List.range (Int.toNat ⌈(stop - start) / step⌉)).map (fun k => start + k * step)

/-- Greedy check that the first list embeds into the second as a subsequence
with every matched element bounded by its partner. -/
def domB : List ℚ → List ℚ → Bool
  | [], _ => true
  | _ :: _, [] => false
  | a :: as, b :: bs => if a ≤ b then domB as bs else domB (a :: as) bs

/-- The first list of durations is dominated by the second: it embeds as a
subsequence with every element bounded by the element it is matched to. -/
def Dominates (l₁ l₂ : List ℚ) : Prop :=
  ∃ l', List.Sublist l' l₂ ∧ List.Forall₂ (· ≤ ·) l₁ l'

/-- Python int(float(...)): truncation of a rational toward zero. -/
def pyTrunc (q : ℚ) : ℤ := if 0 ≤ q then ⌊q⌋ else -⌊-q⌋

end LabRobots

namespace EquiMolar

/-!
Embedding of EquiMolar_pooling_v2.py.

A parsed CSV data row has a well name (first column) and a volume
(second column, float(row[1])).  The script sorts the data rows by volume,
largest to smallest, and transfers each row once from its named source well
on the source plate into pooling tube A1.
-/

structure PoolRow where
  well : String
  volume : ℚ
deriving DecidableEq

/-- One transfer issued by the script: volume, source well on the source
plate, destination tube on the tube block. -/
structure PoolTransfer where
  volume : ℚ
  source_well : String
  dest_tube : String
deriving DecidableEq

/-- transfer_data.sort(key=lambda row: float(row[1]), reverse=True). -/
def sorted_transfer_data (rows : List PoolRow) : List PoolRow :=
  rows.mergeSort (fun a b => decide (b.volume ≤ a.volume))

/-- The sequence of transfers performed by run: one per sorted data row,
each from the row's well into pooling tube A1. -/
def pooling_transfers (rows : List PoolRow) : List PoolTransfer :=
  (sorted_transfer_data rows).map (fun r => ⟨r.volume, r.well, "A1"⟩)

end EquiMolar

namespace MultiPlate

open LabRobots

/-!
Embedding of MultiPlateDilutions_v6.py.

CSV rows are parsed into DilutionRow records, validated, and categorized
into large dilutions (final volume over 200), water-first normal dilutions
(water at least 5) and water-after normal dilutions (water under 5).
The run issues six passes of pipetting commands, modelled as a list of
operations; water drawn from the shared water tubes goes through the
volume-splitting while-loop, modelled by waterSplitLoop.
-/

/-- One parsed CSV data row. -/
structure DilutionRow where
  source_plate : ℤ
  source_well : String
  destination_plate : ℤ
  destination_well : String
  sample_volume : ℚ
  water_volume : ℚ
  initial_sample_volume : ℚ
deriving DecidableEq

/-- A raw CSV cell: its (stripped) text content together with the value of
float(cell), none when the text is not numeric. -/
structure Cell where
  text : String
  numeric : Option ℚ
deriving DecidableEq

/-- Parse one CSV data row; none models the ValueError/IndexError caught at
the top of run (missing column or non-numeric field).  Plate numbers go
through int(float(...)), i.e. truncation toward zero. -/
def parseRow (r : List Cell) : Option DilutionRow := do
  let c0 ← r.get? 0
  let c1 ← r.get? 1
  let c2 ← r.get? 2
  let c3 ← r.get? 3
  let c4 ← r.get? 4
  let c5 ← r.get? 5
  let c6 ← r.get? 6
  let n0 ← c0.numeric
  let n2 ← c2.numeric
  let n4 ← c4.numeric
  let n5 ← c5.numeric
  let n6 ← c6.numeric
  pure { source_plate := pyTrunc n0
         source_well := c1.text
         destination_plate := pyTrunc n2
         destination_well := c3.text
         sample_volume := n4
         water_volume := n5
         initial_sample_volume := n6 }

/-- Parse all data rows (the rows after the header); none as soon as one
row fails, modelling the raised ValueError. -/
def parseAll : List (List Cell) → Option (List DilutionRow)
  | [] => some []
  | r :: rs =>
    match parseRow r, parseAll rs with
    | some d, some ds => some (d :: ds)
    | _, _ => none

/-- The validation section appends no error message for this row. -/
def rowValid (nsp ndp : ℤ) (r : DilutionRow) : Bool :=
  decide (1 ≤ r.source_plate) && decide (r.source_plate ≤ nsp) &&
  decide (1 ≤ r.destination_plate) && decide (r.destination_plate ≤ ndp) &&
  decide (0 < r.sample_volume) && decide (0 ≤ r.water_volume) &&
  decide (0 < r.initial_sample_volume)

/-- Rows whose final volume exceeds 200 (need reservoir prep). -/
def wells_large_dilution (rows : List DilutionRow) : List DilutionRow :=
  rows.filter (fun r => decide (200 < r.sample_volume + r.water_volume))

/-- Rows whose final volume is at most 200. -/
def wells_normal (rows : List DilutionRow) : List DilutionRow :=
  rows.filter (fun r => decide (r.sample_volume + r.water_volume ≤ 200))

/-- Normal rows with water volume at least 5 (water added first). -/
def wells_water_first (rows : List DilutionRow) : List DilutionRow :=
  (wells_normal rows).filter (fun r => decide (5 ≤ r.water_volume))

/-- Normal rows with water volume under 5 (water added after). -/
def wells_water_after (rows : List DilutionRow) : List DilutionRow :=
  (wells_normal rows).filter (fun r => decide (r.water_volume < 5))

/-- total_water = total_water_normal + total_water_large. -/
def total_water (rows : List DilutionRow) : ℚ :=
  ((wells_normal rows).map DilutionRow.water_volume).sum +
  ((wells_large_dilution rows).map DilutionRow.water_volume).sum

def total_water_with_buffer (rows : List DilutionRow) : ℚ :=
  total_water rows + 50

/-- math.ceil(total_water_with_buffer / 1500), the 1500 being the water
tube capacity. -/
def num_water_tubes (rows : List DilutionRow) : ℕ :=
  (⌈total_water_with_buffer rows / 1500⌉).toNat

def num_reservoir_tubes_needed (rows : List DilutionRow) : ℕ :=
  (wells_large_dilution rows).length

def dilution_tube_start_index (rows : List DilutionRow) : ℕ :=
  num_water_tubes rows

def total_tubes_needed (rows : List DilutionRow) : ℕ :=
  num_water_tubes rows + num_reservoir_tubes_needed rows

def water_per_tube (rows : List DilutionRow) : ℚ :=
  total_water_with_buffer rows / (num_water_tubes rows : ℚ)

/-- The tip-calculation section. -/
def total_tips_needed (rows : List DilutionRow) : ℕ :=
  (if wells_large_dilution rows = [] then 0 else 1 + (wells_large_dilution rows).length) +
  (if wells_water_first rows = [] then 0 else 1 + (wells_water_first rows).length) +
  2 * (wells_water_after rows).length

/-- math.ceil(total_tips_needed / tips_per_rack) with tips_per_rack = 96. -/
def tip_racks_needed (rows : List DilutionRow) : ℕ :=
  (⌈(total_tips_needed rows : ℚ) / 96⌉).toNat

/-- A pipette location: water tube, large-dilution reservoir tube (both on
the 24-tube rack, indexed in column-first order), or a plate well. -/
inductive Loc where
  | waterTube (idx : ℕ)
  | dilutionTube (idx : ℕ)
  | sourceWell (plate : ℤ) (well : String)
  | destWell (plate : ℤ) (well : String)
deriving DecidableEq

/-- An issued pipetting command.  An aspirate followed by the matching
dispense (with its optional 0.5 air gap) is modelled as one transfer of
the aspirated liquid volume. -/
inductive Op where
  | pick_up_tip
  | drop_tip
  | transfer (vol : ℚ) (src dst : Loc)
  | mix (reps : ℕ) (vol : ℚ) (loc : Loc)
deriving DecidableEq

inductive RunError where
  | parseFailure
  | validationFailure
  | tubeOverflow
  | ranOutOfWaterTubes
  | outOfFuel
deriving DecidableEq

/-- current_water_tube_index and water_remaining_in_current_tube. -/
structure WaterState where
  idx : ℕ
  rem : ℚ
deriving DecidableEq

/-- The while-loop that distributes one required water volume, switching to
the next water tube when under 1 µL remains and transferring
min(water_vol_remaining, water_remaining_in_current_tube, 19) each
iteration.  Returns the transfers as (tube index, volume) pairs. -/
def waterSplitLoop (n : ℕ) (w : ℚ) :
    ℕ → ℚ → WaterState → List (ℕ × ℚ) × WaterState × Option RunError
  | 0, wvr, s => if wvr ≤ 0 then ([], s, none) else ([], s, some .outOfFuel)
  | fuel + 1, wvr, s =>
    if wvr ≤ 0 then ([], s, none)
    else if s.rem < 1 then
      if n ≤ s.idx + 1 then ([], s, some .ranOutOfWaterTubes)
      else
        let t := min (min wvr w) 19
        let r := waterSplitLoop n w fuel (wvr - t) ⟨s.idx + 1, w - t⟩
        ((s.idx + 1, t) :: r.1, r.2)
    else
      let t := min (min wvr s.rem) 19
      let r := waterSplitLoop n w fuel (wvr - t) ⟨s.idx, s.rem - t⟩
      ((s.idx, t) :: r.1, r.2)

/-- Run the splitting loop for each required volume of a pass in turn,
carrying the water-tube state across rows, as each of the three
water-distribution passes does. -/
def waterSplitMany (n : ℕ) (w : ℚ) (fuel : ℕ) :
    List ℚ → WaterState → List (List (ℕ × ℚ)) × WaterState × Option RunError
  | [], s => ([], s, none)
  | d :: ds, s =>
    let r := waterSplitLoop n w fuel d s
    match r.2.2 with
    | some e => ([r.1], r.2.1, some e)
    | none =>
      let rest := waterSplitMany n w fuel ds r.2.1
      (r.1 :: rest.1, rest.2.1, rest.2.2)

/-- The transfer volumes used when a sample volume is moved, split into
chunks of 19 with the remainder last whenever it exceeds 19. -/
def sample_transfer_vols (sample_vol : ℚ) : List ℚ :=
  if 19 < sample_vol then
    let n := (⌈sample_vol / 19⌉).toNat
    (List.range n).map (fun i => if i = n - 1 then sample_vol - ((n : ℚ) - 1) * 19 else 19)
  else [sample_vol]

def mix_before_volume (r : DilutionRow) : ℚ := min (r.initial_sample_volume * 0.8) 20

def final_volume (r : DilutionRow) : ℚ := r.sample_volume + r.water_volume

def mix_after_volume (r : DilutionRow) : ℚ := min (final_volume r * 0.8) 20

def srcLoc (r : DilutionRow) : Loc := .sourceWell r.source_plate r.source_well

def destLoc (r : DilutionRow) : Loc := .destWell r.destination_plate r.destination_well

/-- The sample-transfer block shared by the three sample-handling passes:
on the split branch a mix before the first transfer and mixLastSplit after
the last, on the single-transfer branch mixFirst, the transfer, then
mixLastSingle. -/
def sample_split_ops (src dst : Loc) (mixFirst mixLastSplit mixLastSingle : List Op)
    (s : ℚ) : List Op :=
  if 19 < s then
    let vols := sample_transfer_vols s
    (vols.enum.map (fun p =>
      (if p.1 = 0 then mixFirst else []) ++
      [Op.transfer p.2 src dst] ++
      (if p.1 = vols.length - 1 then mixLastSplit else []))).flatten
  else mixFirst ++ [Op.transfer s src dst] ++ mixLastSingle

/-- STEP 1A: water into the large-dilution reservoir tubes (one shared tip). -/
def pass1Ops (n : ℕ) (w : ℚ) (fuel start : ℕ) (L : List DilutionRow) :
    List Op × Option RunError :=
  if L = [] then ([], none)
  else
    let r := waterSplitMany n w fuel (L.map DilutionRow.water_volume) ⟨0, w⟩
    ([Op.pick_up_tip] ++
      (r.1.enum.map (fun p =>
        p.2.map (fun q => Op.transfer q.2 (.waterTube q.1) (.dilutionTube (start + p.1))))).flatten ++
      (if r.2.2 = none then [Op.drop_tip] else []),
     r.2.2)

/-- STEP 1B: water into the destination wells of the water-first rows
(one shared tip). -/
def pass2Ops (n : ℕ) (w : ℚ) (fuel : ℕ) (F : List DilutionRow) :
    List Op × Option RunError :=
  if F = [] then ([], none)
  else
    let r := waterSplitMany n w fuel (F.map DilutionRow.water_volume) ⟨0, w⟩
    ([Op.pick_up_tip] ++
      ((F.zip r.1).map (fun p =>
        p.2.map (fun q => Op.transfer q.2 (.waterTube q.1) (destLoc p.1)))).flatten ++
      (if r.2.2 = none then [Op.drop_tip] else []),
     r.2.2)

/-- STEP 2: one large dilution: sample into its reservoir tube with mixing,
then 19 + 19 + 12 µL from the tube to the destination well, one tip. -/
def pass3RowOps (start i : ℕ) (r : DilutionRow) : List Op :=
  let tube := Loc.dilutionTube (start + i)
  [Op.pick_up_tip] ++
  sample_split_ops (srcLoc r) tube
    [Op.mix 10 (mix_before_volume r) (srcLoc r)]
    [Op.mix 10 (mix_after_volume r) tube]
    [Op.mix 10 (mix_after_volume r) tube]
    r.sample_volume ++
  [Op.transfer 19 tube (destLoc r), Op.transfer 19 tube (destLoc r),
   Op.transfer 12 tube (destLoc r), Op.drop_tip]

def pass3Ops (start : ℕ) (L : List DilutionRow) : List Op :=
  (L.enum.map (fun p => pass3RowOps start p.1 p.2)).flatten

/-- STEP 3: sample into a water-first destination well, one tip per row. -/
def pass4RowOps (r : DilutionRow) : List Op :=
  [Op.pick_up_tip] ++
  sample_split_ops (srcLoc r) (destLoc r)
    [Op.mix 10 (mix_before_volume r) (srcLoc r)]
    [Op.mix 10 (mix_after_volume r) (destLoc r)]
    [Op.mix 9 (mix_after_volume r) (destLoc r),
     Op.transfer (mix_after_volume r) (destLoc r) (destLoc r)]
    r.sample_volume ++
  [Op.drop_tip]

/-- STEP 4: sample first into a water-after destination well. -/
def pass5RowOps (r : DilutionRow) : List Op :=
  [Op.pick_up_tip] ++
  sample_split_ops (srcLoc r) (destLoc r)
    [Op.mix 10 (mix_before_volume r) (srcLoc r)]
    []
    []
    r.sample_volume ++
  [Op.drop_tip]

/-- STEP 5: water after the sample, one tip per row; the mix runs inside
the loop right after the final water transfer. -/
def pass6RowOps (r : DilutionRow) (ts : List (ℕ × ℚ)) : List Op :=
  [Op.pick_up_tip] ++
  (ts.enum.map (fun p =>
    [Op.transfer p.2.2 (.waterTube p.2.1) (destLoc r)] ++
    (if p.1 = ts.length - 1 then
      [Op.mix 9 (mix_after_volume r) (destLoc r),
       Op.transfer (mix_after_volume r) (destLoc r) (destLoc r)]
     else []))).flatten ++
  [Op.drop_tip]

def pass6Ops (n : ℕ) (w : ℚ) (fuel : ℕ) (A : List DilutionRow) :
    List Op × Option RunError :=
  if A = [] then ([], none)
  else
    let r := waterSplitMany n w fuel (A.map DilutionRow.water_volume) ⟨0, w⟩
    (((A.zip r.1).map (fun p => pass6RowOps p.1 p.2)).flatten, r.2.2)

/-- The pipetting trace of a validated CSV: the six passes in program
order, stopping at the first raised error. -/
def buildTrace (rows : List DilutionRow) (fuel : ℕ) : List Op × Option RunError :=
  let n := num_water_tubes rows
  let w := water_per_tube rows
  let start := dilution_tube_start_index rows
  let L := wells_large_dilution rows
  let F := wells_water_first rows
  let A := wells_water_after rows
  let p1 := pass1Ops n w fuel start L
  match p1.2 with
  | some e => (p1.1, some e)
  | none =>
    let p2 := pass2Ops n w fuel F
    match p2.2 with
    | some e => (p1.1 ++ p2.1, some e)
    | none =>
      let p6 := pass6Ops n w fuel A
      (p1.1 ++ p2.1 ++ pass3Ops start L ++ (F.map pass4RowOps).flatten ++
        (A.map pass5RowOps).flatten ++ p6.1,
       p6.2)

/-- The whole protocol: parse, validate, check the 24-tube rack capacity,
then issue the pipetting trace.  The first component lists the commands
issued before the run ends or aborts. -/
def runMultiPlate (nsp ndp : ℤ) (raws : List (List Cell)) (fuel : ℕ) :
    List Op × Option RunError :=
  match parseAll raws with
  | none => ([], some .parseFailure)
  | some rows =>
    if rows.all (rowValid nsp ndp) then
      if 24 < total_tubes_needed rows then ([], some .tubeOverflow)
      else buildTrace rows fuel
    else ([], some .validationFailure)

/-- Number of pick_up_tip commands in a trace. -/
def pickCount (ops : List Op) : ℕ :=
  ops.countP (fun o => o = Op.pick_up_tip)

/-- Net liquid volume moved into a location by a trace. -/
def netInto (loc : Loc) : List Op → ℚ
  | [] => 0
  | Op.transfer v src dst :: rest =>
    ((if dst = loc then v else 0) - (if src = loc then v else 0)) + netInto loc rest
  | _ :: rest => netInto loc rest

/-- The transfers of a trace that move liquid into a location, with their
sources. -/
def transfersInto (loc : Loc) (ops : List Op) : List (ℚ × Loc) :=
  ops.filterMap (fun o =>
    match o with
    | Op.transfer v src dst => if dst = loc then some (v, src) else none
    | _ => none)

/-! The invariant showing the water-tube switch never runs past the last
tube: the remaining demand of a pass plus a one-µL margin always fits in
the current tube plus a (capacity minus 1 µL) allowance per untouched tube. -/

def WaterInv (n : ℕ) (w : ℚ) (s : WaterState) (D : ℚ) : Prop :=
  s.idx < n ∧ D + 1 ≤ s.rem + ((n - 1 - s.idx : ℕ) : ℚ) * (w - 1)

/-- The concrete two-row CSV used as witness input: a water-first row and
a water-after row. -/
def wCsv : List (List Cell) :=
  [[⟨"1", some 1⟩, ⟨"A1", none⟩, ⟨"1", some 1⟩, ⟨"B1", none⟩,
    ⟨"10", some 10⟩, ⟨"10", some 10⟩, ⟨"20", some 20⟩],
   [⟨"1", some 1⟩, ⟨"A2", none⟩, ⟨"1", some 1⟩, ⟨"B2", none⟩,
    ⟨"2", some 2⟩, ⟨"1", some 1⟩, ⟨"4", some 4⟩]]

def wRows : List DilutionRow :=
  [⟨1, "A1", 1, "B1", 10, 10, 20⟩, ⟨1, "A2", 1, "B2", 2, 1, 4⟩]

/-- A CSV whose single row fails validation (sample volume 0). -/
def wBadCsv : List (List Cell) :=
  [[⟨"1", some 1⟩, ⟨"A1", none⟩, ⟨"1", some 1⟩, ⟨"B1", none⟩,
    ⟨"0", some 0⟩, ⟨"10", some 10⟩, ⟨"20", some 20⟩]]

end MultiPlate

namespace Zymo48

open LabRobots

/-!
Embedding of Flex/Zymo_Magbead_DNA_Kit_48samples.py.

The configuration is the one hard-coded through get_values: 48 samples in
6 columns, heater-shaker and temperature module loaded, trash bin (no
chute).  The claims about this script concern its timed delays, its user
pauses and its tip counters, so the trace records the tip operations, the
ctx.delay durations (in minutes) and the pauses; the liquid transfers in
between issue none of these.  The dry_run flag is kept as a parameter.
-/

inductive PauseMsg where
  | emptyTipWaste
  | emptyLiquidWaste
deriving DecidableEq

inductive Op where
  | pickUpTip (tipIndex : ℕ)
  | dropTip
  | delayMinutes (d : ℚ)
  | pause (msg : PauseMsg)
deriving DecidableEq

def num_cols : ℕ := 6

def settling_time (dry : Bool) : ℚ := if dry then 1/4 else 2

def settling_time_binding (dry : Bool) : ℚ := if dry then 1/4 else 5

def settling_time_wash (dry : Bool) : ℚ := if dry then 1/4 else 1

/-- The globals tip1k and drop_count. -/
structure TipState where
  tip1k : ℕ
  drop_count : ℕ
deriving DecidableEq

/-- tiptrack(m1000, tips): pick up the tip at well index tip1k and advance
by 8; add 8 to the dropped-tip counter and, at 150, reset it and pause to
empty the tip waste. -/
def tiptrack (s : TipState) : List Op × TipState :=
  let dc := s.drop_count + 8
  if 150 ≤ dc then
    ([Op.pickUpTip s.tip1k, Op.pause PauseMsg.emptyTipWaste], ⟨s.tip1k + 8, 0⟩)
  else
    ([Op.pickUpTip s.tip1k], ⟨s.tip1k + 8, dc⟩)

/-- A countdown loop: one 0.5-minute delay per element of
np.arange(x, 0, -0.5). -/
def settlingDelays (x : ℚ) : List Op :=
  (npArange x 0 (-(1/2))).map (fun _ => Op.delayMinutes (1/2))

/-- k iterations of (tiptrack; transfers; drop_tip). -/
def tipDropLoop : ℕ → TipState → List Op × TipState
  | 0, s => ([], s)
  | k + 1, s =>
    let r := tiptrack s
    let rest := tipDropLoop k r.2
    (r.1 ++ [Op.dropTip] ++ rest.1, rest.2)

/-- blink(): three on/off cycles, each delaying 0.01666667 minutes twice. -/
def blinkOps : List Op :=
  List.replicate 6 (Op.delayMinutes (0.01666667 : ℚ))

/-- _waste_track, defined inside remove_supernatant but never called.  Its
waste_vol global is never initialized, so the first read raises NameError:
with no prior value the call produces no pause and no new state. -/
def waste_track (waste_vol : Option ℚ) (vol : ℚ) : Option (List Op × ℚ) :=
  match waste_vol with
  | none => none
  | some wv =>
    let wv' := wv + vol * 8
    if 185000 ≤ wv' then some (blinkOps ++ [Op.pause PauseMsg.emptyLiquidWaste], 0)
    else some (([] : List Op), wv')

/-- bind(binding_buffer_vol, bind2_vol): the binding-buffer distribution,
the shake and settling delays, two supernatant removals and the second
binding step. -/
def bind48 (dry : Bool) (s : TipState) : List Op × TipState :=
  let l1 := tipDropLoop num_cols s
  let shake1 : List Op := [Op.delayMinutes (if dry then 1/4 else 10)]
  let settle1 := settlingDelays (settling_time_binding dry + 1)
  let rs1 := tipDropLoop num_cols l1.2
  let t2 := tiptrack rs1.2
  let l2 := tipDropLoop (num_cols - 1) t2.2
  let shake2 : List Op := [Op.delayMinutes (if dry then 1/4 else 1)]
  let settle2 := settlingDelays (settling_time_wash dry + 1)
  let rs2 := tipDropLoop num_cols l2.2
  (l1.1 ++ shake1 ++ settle1 ++ rs1.1 ++
   t2.1 ++ [Op.dropTip] ++ l2.1 ++ shake2 ++ settle2 ++ rs2.1, rs2.2)

/-- wash(vol, source): one shared tip for distribution, the 2-minute shake,
the settling countdown and the supernatant removal. -/
def wash48 (dry : Bool) (s : TipState) : List Op × TipState :=
  let t := tiptrack s
  let shake : List Op := [Op.delayMinutes (if dry then 1/4 else 2)]
  let settle := settlingDelays (settling_time_wash dry)
  let rs := tipDropLoop num_cols t.2
  (t.1 ++ [Op.dropTip] ++ shake ++ settle ++ rs.1, rs.2)

/-- elute(vol): elution distribution, shake, settling, then one tip per
column for the final transfer. -/
def elute48 (dry : Bool) (s : TipState) : List Op × TipState :=
  let t := tiptrack s
  let shake : List Op := [Op.delayMinutes (if dry then 1/4 else 5)]
  let settle := settlingDelays (settling_time dry)
  let fin := tipDropLoop num_cols t.2
  (t.1 ++ [Op.dropTip] ++ shake ++ settle ++ fin.1, fin.2)

/-- The protocol execution block: bind, wash 1, then (wet only) washes 2
and 3, the bead-drying countdown, and elution. -/
def run48 (dry : Bool) : List Op :=
  let b := bind48 dry ⟨0, 0⟩
  let w1 := wash48 dry b.2
  let rest :=
    if dry then (([] : List Op), w1.2)
    else
      let w2 := wash48 dry w1.2
      let w3 := wash48 dry w2.2
      (w2.1 ++ w3.1, w3.2)
  let drybeads : ℚ := if dry then 1/2 else 9
  let e := elute48 dry rest.2
  b.1 ++ w1.1 ++ rest.1 ++ settlingDelays drybeads ++ e.1

def delaysOf (ops : List Op) : List ℚ :=
  ops.filterMap (fun o => match o with
    | Op.delayMinutes d => some d
    | _ => none)

end Zymo48

namespace Zymo24

open LabRobots

/-!
Embedding of Zymo_Magbead_DNA_Kit_24samples_20250828.py.

The claims about this script concern its tip discipline (which reserved
tip columns are picked, returned and disposed), its timed delays and its
waste-bin pauses, so the trace records tip operations (by column index
into total_tips), ctx.delay durations and pauses.  The countdown loops use
the two-argument np.arange(duration, -0.5), whose step is +1, and are
therefore empty for every nonnegative duration.  The run is parameterized
by the dry_run flag and the number of sample columns
math.ceil(sample_count / 8).
-/

inductive PauseMsg where
  | emptyTipWaste
  | emptyLiquidWaste
deriving DecidableEq

inductive Op where
  | pickUpTip (col : ℕ)
  | returnTip
  | dropTip
  | delayMinutes (d : ℚ)
  | pause (msg : PauseMsg)
deriving DecidableEq

/-- The Timer dataclass. -/
structure Timer where
  MAGNET_SETTLING : ℚ
  MAGNET_SETTLING_EXT : ℚ
  WASH : ℚ
  SHAKER_WASH : ℚ
  SHAKER_ELUTE : ℚ
  BLINK : ℚ
  BIND : ℚ
  BEAD_DRY : ℚ
deriving DecidableEq

/-- Dry run reduces every timer to 0.25. -/
def timers (dry : Bool) : Timer :=
  if dry then ⟨1/4, 1/4, 1/4, 1/4, 1/4, 1/4, 1/4, 1/4⟩
  else ⟨2, 3, 1, 1, 5, 1/60, 3, 10⟩

def SAMPLE : ℚ := 200
def MAGBINDING_BUFFER : ℚ := 600
def MAGBEADS : ℚ := 20
def MAGBINDING_BUFFER_WASH : ℚ := 500
def MAGWASH_1 : ℚ := 500
def MAGWASH_2_1 : ℚ := 900
def MAGWASH_2_2 : ℚ := 900
def BINDING_BUFFER_VOLUME : ℚ := MAGBINDING_BUFFER + MAGBEADS
def TOTAL_BINDING_VOLUME : ℚ := MAGBINDING_BUFFER + MAGBEADS + SAMPLE

/-- math.ceil(sample_count / 8). -/
def num_sample_columns (sc : ℕ) : ℕ := (⌈(sc:ℚ)/8⌉).toNat

/-- The countdown loops written np.arange(duration, -0.5): step +1, hence
empty whenever the duration is nonnegative. -/
def countdown (duration : ℚ) : List Op :=
  (npArange duration (-(1/2)) 1).map (fun _ => Op.delayMinutes (1/2))

def blink (dry : Bool) : List Op :=
  List.replicate 6 (Op.delayMinutes (timers dry).BLINK)

/-- track_waste: accumulate eight channels of the removed volume and pause
(after blinking) when the liquid waste would exceed 185 mL. -/
def track_waste (dry : Bool) (wv : ℚ) (volume : ℚ) : List Op × ℚ :=
  let wv' := wv + volume * 8
  if 185000 ≤ wv' then (blink dry ++ [Op.pause PauseMsg.emptyLiquidWaste], 0)
  else (([] : List Op), wv')

/-- drop_tips: drop the held tip, count it, and at 18 drops reset the
counter and pause to empty the waste bin. -/
def drop_tips (dc : ℕ) : List Op × ℕ :=
  let dc' := dc + 1
  if 18 ≤ dc' then ([Op.dropTip, Op.pause PauseMsg.emptyTipWaste], 0)
  else ([Op.dropTip], dc')

/-- supernatant_tips = total_tips[1 : num_sample_columns + 1]. -/
def superCols (nc : ℕ) : List ℕ := (List.range nc).map (fun i => 1 + i)

/-- elution_tips = total_tips[1 + num_sample_columns : 1 + 2 num_sample_columns]. -/
def eluteCols (nc : ℕ) : List ℕ := (List.range nc).map (fun i => 1 + nc + i)

/-- One pick-up per listed column, released by return_tips or (when
disposing) by drop_tips, threading the drop counter. -/
def colTips : List ℕ → Bool → ℕ → List Op × ℕ
  | [], _, dc => ([], dc)
  | c :: cs, dispose, dc =>
    if dispose then
      let d := drop_tips dc
      let rest := colTips cs dispose d.2
      (Op.pickUpTip c :: (d.1 ++ rest.1), rest.2)
    else
      let rest := colTips cs dispose dc
      (Op.pickUpTip c :: (Op.returnTip :: rest.1), rest.2)

/-- remove_supernatant(volume, dispose_tips): waste tracking, then one
supernatant tip per sample column. -/
def remove_supernatant24 (dry : Bool) (nc : ℕ) (volume : ℚ) (dispose : Bool)
    (st : ℕ × ℚ) : List Op × (ℕ × ℚ) :=
  let tw := track_waste dry st.2 volume
  let cols := colTips (superCols nc) dispose st.1
  (tw.1 ++ cols.1, (cols.2, tw.2))

/-- The delays of shake_mix: np.arange(duration, -0.5) of 0.5-minute
delays (empty). -/
def shake_mix_ops (duration : ℚ) : List Op := countdown duration

/-- move_to_magnet: settling countdown only when a duration is passed. -/
def move_to_magnet_ops (duration : ℚ) : List Op :=
  if 0 < duration then countdown duration else []

/-- bind(): reagent-tip distribution, per-column binding mix with the
reserved supernatant tips, the binding countdown, magnet settling and the
first supernatant removal. -/
def bind24 (dry : Bool) (nc : ℕ) (st : ℕ × ℚ) : List Op × (ℕ × ℚ) :=
  let pre : List Op := [Op.pickUpTip 0, Op.returnTip]
  let mixLoop := colTips (superCols nc) false st.1
  let cd := countdown (timers dry).BIND
  let mv := move_to_magnet_ops (timers dry).MAGNET_SETTLING_EXT
  let rs := remove_supernatant24 dry nc TOTAL_BINDING_VOLUME false (mixLoop.2, st.2)
  (pre ++ mixLoop.1 ++ cd ++ mv ++ rs.1, rs.2)

/-- wash(source_plate, volume, dispose_tips). -/
def wash24 (dry : Bool) (nc : ℕ) (volume : ℚ) (dispose : Bool) (st : ℕ × ℚ) :
    List Op × (ℕ × ℚ) :=
  let pre : List Op := [Op.pickUpTip 0, Op.returnTip]
  let sm := shake_mix_ops (timers dry).SHAKER_WASH
  let mv := move_to_magnet_ops (timers dry).MAGNET_SETTLING
  let rs := remove_supernatant24 dry nc volume dispose st
  (pre ++ sm ++ mv ++ rs.1, rs.2)

/-- elute(): bead-drying countdown, elution distribution and final plate
transfer with the reserved elution tips, dropped at the end. -/
def elute24 (dry : Bool) (nc : ℕ) (st : ℕ × ℚ) : List Op × (ℕ × ℚ) :=
  let cd := countdown (timers dry).BEAD_DRY
  let l1 := colTips (eluteCols nc) false st.1
  let sm := shake_mix_ops (timers dry).SHAKER_ELUTE
  let mv := move_to_magnet_ops (timers dry).MAGNET_SETTLING
  let l2 := colTips (eluteCols nc) true l1.2
  (cd ++ l1.1 ++ sm ++ mv ++ l2.1, (l2.2, st.2))

/-- The protocol sequence: bind, four washes (the last disposing the
supernatant tips), elute. -/
def run24 (dry : Bool) (nc : ℕ) : List Op :=
  let b := bind24 dry nc (0, 0)
  let w1 := wash24 dry nc MAGBINDING_BUFFER_WASH false b.2
  let w2 := wash24 dry nc MAGWASH_1 false w1.2
  let w3 := wash24 dry nc MAGWASH_2_1 false w2.2
  let w4 := wash24 dry nc MAGWASH_2_2 true w3.2
  let e := elute24 dry nc w4.2
  b.1 ++ w1.1 ++ w2.1 ++ w3.1 ++ w4.1 ++ e.1

def delaysOf (ops : List Op) : List ℚ :=
  ops.filterMap (fun o => match o with
    | Op.delayMinutes d => some d
    | _ => none)

/-- A tip event: pick-up of a column, return, or disposal. -/
inductive TipEv where
  | pick (col : ℕ)
  | ret
  | drop
deriving DecidableEq

def tipEvents (ops : List Op) : List TipEv :=
  ops.filterMap (fun o => match o with
    | Op.pickUpTip c => some (TipEv.pick c)
    | Op.returnTip => some TipEv.ret
    | Op.dropTip => some TipEv.drop
    | _ => none)

def pickedCols (ops : List Op) : List ℕ :=
  ops.filterMap (fun o => match o with
    | Op.pickUpTip c => some c
    | _ => none)

/-- The reserved-tip discipline of the claim: reagent column 0 picked and
returned once per reagent distribution; each supernatant column picked and
returned through the binding step and the first three washes and dropped
in the final wash; each elution column picked twice, returned once and
dropped once. -/
def expectedTipEvents (nc : ℕ) : List TipEv :=
  let reagent : List TipEv := [TipEv.pick 0, TipEv.ret]
  let superRet := ((List.range nc).map (fun i => [TipEv.pick (1+i), TipEv.ret])).flatten
  let superDrop := ((List.range nc).map (fun i => [TipEv.pick (1+i), TipEv.drop])).flatten
  let eluteRet := ((List.range nc).map (fun i => [TipEv.pick (1+nc+i), TipEv.ret])).flatten
  let eluteDrop := ((List.range nc).map (fun i => [TipEv.pick (1+nc+i), TipEv.drop])).flatten
  reagent ++ superRet ++ superRet ++
  reagent ++ superRet ++
  reagent ++ superRet ++
  reagent ++ superRet ++
  reagent ++ superDrop ++
  eluteRet ++ eluteDrop
end Zymo24

namespace SelectASize

/-!
Embedding of Flex/SelectASizeCleaning.py, delay structure only: the
protocol issues exactly four timed delays (steps 5, 7, 13 and 14), each
0.5 minutes under dry run and otherwise 5, m, 5, m minutes where m is the
magbead incubation parameter (bounded below by 1.0 in add_parameters). -/

def protocol_delays (dry : Bool) (m : ℚ) : List ℚ :=
  [if dry then 1/2 else 5,
   if dry then 1/2 else m,
   if dry then 1/2 else 5,
   if dry then 1/2 else m]

end SelectASize

namespace LibraryPrep

/-!
Embedding of Flex/Zymo_LibraryPrep_TG_V2.py, delay and hold structure
only (in seconds): two one-second settling delays, then - only when the
thermocycler is used and dry run is off - the PCR holds (600 s, then 42
repetitions of 30 + 30 + 180 s), then one one-second delay per pooled
column. -/

def protocol_delays (dry : Bool) (thermo : Bool) : List ℚ :=
  [1, 1] ++
  (if thermo ∧ ¬ dry then
    600 :: ((List.range 42).map (fun _ => [(30:ℚ), 30, 180])).flatten
   else []) ++
  List.replicate 12 1

end LibraryPrep

/-! ### Theorems -/

namespace LabRobots

theorem domB_sound : ∀ (l₁ l₂ : List ℚ), domB l₁ l₂ = true → Dominates l₁ l₂ := by
  intro l₁ l₂
  induction l₂ generalizing l₁ with
  | nil =>
    cases l₁ with
    | nil => intro _; exact ⟨[], List.Sublist.refl _, List.Forall₂.nil⟩
    | cons a as => intro h; simp [domB] at h
  | cons b bs ih =>
    cases l₁ with
    | nil => intro _; exact ⟨[], List.nil_sublist _, List.Forall₂.nil⟩
    | cons a as =>
      intro h
      by_cases hab : a ≤ b
      · simp only [domB, if_pos hab] at h
        obtain ⟨l', hsub, hf⟩ := ih as h
        exact ⟨b :: l', List.Sublist.cons₂ _ hsub, List.Forall₂.cons hab hf⟩
      · simp only [domB, if_neg hab] at h
        obtain ⟨l', hsub, hf⟩ := ih (a :: as) h
        exact ⟨l', List.Sublist.cons _ hsub, hf⟩

theorem dominates_refl (l : List ℚ) : Dominates l l :=
  ⟨l, List.Sublist.refl _, List.forall₂_same.mpr (fun x _ => le_refl x)⟩

end LabRobots

namespace EquiMolar

theorem sorted_transfer_data_perm (rows : List PoolRow) :
    (sorted_transfer_data rows).Perm rows :=
  List.mergeSort_perm rows _

theorem sorted_transfer_data_sorted (rows : List PoolRow) :
    (sorted_transfer_data rows).Pairwise (fun a b => b.volume ≤ a.volume) := by
  have h := @List.sorted_mergeSort PoolRow
    (fun a b => decide (b.volume ≤ a.volume))
    (fun a b c hab hbc => by
      simp only [decide_eq_true_eq] at *
      exact le_trans hbc hab)
    (fun a b => by
      rcases le_total b.volume a.volume with h | h <;> simp [h])
    rows
  exact h.imp (fun h => by simpa using h)

/-- C6: every data row of the uploaded CSV is transferred exactly once
(the transfers, read back as rows, are a permutation of the data rows),
the transfers run in non-increasing order of the row volume, and every
transfer goes from the row's named source well into pooling tube A1. -/
theorem C6_equimolar_pooling (rows : List PoolRow) :
    ((pooling_transfers rows).map
      (fun t => PoolRow.mk t.source_well t.volume)).Perm rows ∧
    (pooling_transfers rows).Pairwise (fun a b => b.volume ≤ a.volume) ∧
    ∀ t ∈ pooling_transfers rows, t.dest_tube = "A1" := by
  refine ⟨?_, ?_, ?_⟩
  · have hcomp : (pooling_transfers rows).map
        (fun t => PoolRow.mk t.source_well t.volume) = sorted_transfer_data rows := by
      unfold pooling_transfers
      rw [List.map_map]
      have hid : ((fun t : PoolTransfer => PoolRow.mk t.source_well t.volume) ∘
          (fun r : PoolRow => (⟨r.volume, r.well, "A1"⟩ : PoolTransfer))) = id := rfl
      rw [hid, List.map_id]
    rw [hcomp]
    exact sorted_transfer_data_perm rows
  · unfold pooling_transfers
    exact List.Pairwise.map _ (fun a b h => h) (sorted_transfer_data_sorted rows)
  · intro t ht
    unfold pooling_transfers at ht
    obtain ⟨r, _, rfl⟩ := List.mem_map.mp ht
    rfl


end EquiMolar

namespace MultiPlate

/-! Lemmas about the water-splitting loop. -/

theorem waterSplitLoop_vols (n : ℕ) (w : ℚ) (hw : 1 ≤ w) :
    ∀ (fuel : ℕ) (wvr : ℚ) (s : WaterState),
      ∀ p ∈ (waterSplitLoop n w fuel wvr s).1, 0 < p.2 ∧ p.2 ≤ 19 := by
  intro fuel
  induction fuel with
  | zero =>
    intro wvr s p hp
    simp only [waterSplitLoop] at hp
    split_ifs at hp <;> simp at hp
  | succ fuel ih =>
    intro wvr s p hp
    simp only [waterSplitLoop] at hp
    split_ifs at hp with h0 h1 h2
    · simp at hp
    · simp at hp
    · rcases List.mem_cons.mp hp with rfl | hp
      · refine ⟨lt_min (lt_min (lt_of_not_le h0) (by linarith)) (by norm_num), ?_⟩
        exact min_le_right _ _
      · exact ih _ _ p hp
    · rcases List.mem_cons.mp hp with rfl | hp
      · refine ⟨lt_min (lt_min (lt_of_not_le h0) (by linarith [not_lt.mp h1])) (by norm_num), ?_⟩
        exact min_le_right _ _
      · exact ih _ _ p hp

theorem waterSplitLoop_sum (n : ℕ) (w : ℚ) :
    ∀ (fuel : ℕ) (wvr : ℚ) (s : WaterState), 0 ≤ wvr →
      (waterSplitLoop n w fuel wvr s).2.2 = none →
      ((waterSplitLoop n w fuel wvr s).1.map Prod.snd).sum = wvr := by
  intro fuel
  induction fuel with
  | zero =>
    intro wvr s h0 hok
    by_cases h1 : wvr ≤ 0
    · simp [waterSplitLoop, h1]
      linarith
    · simp [waterSplitLoop, h1] at hok
  | succ fuel ih =>
    intro wvr s h0 hok
    by_cases h1 : wvr ≤ 0
    · simp [waterSplitLoop, h1]
      linarith
    · by_cases h2 : s.rem < 1
      · by_cases h3 : n ≤ s.idx + 1
        · simp [waterSplitLoop, h1, h2, h3] at hok
        · simp only [waterSplitLoop, if_neg h1, if_pos h2, if_neg h3] at hok ⊢
          have hle : min (min wvr w) 19 ≤ wvr :=
            le_trans (min_le_left _ _) (min_le_left _ _)
          have hrec := ih (wvr - min (min wvr w) 19) ⟨s.idx + 1, w - min (min wvr w) 19⟩
            (by linarith) hok
          simp only [List.map_cons, List.sum_cons, hrec]
          ring
      · simp only [waterSplitLoop, if_neg h1, if_neg h2] at hok ⊢
        have hle : min (min wvr s.rem) 19 ≤ wvr :=
          le_trans (min_le_left _ _) (min_le_left _ _)
        have hrec := ih (wvr - min (min wvr s.rem) 19) ⟨s.idx, s.rem - min (min wvr s.rem) 19⟩
          (by linarith) hok
        simp only [List.map_cons, List.sum_cons, hrec]
        ring

theorem waterSplitMany_length (n : ℕ) (w : ℚ) (fuel : ℕ) :
    ∀ (ds : List ℚ) (s : WaterState),
      (waterSplitMany n w fuel ds s).2.2 = none →
      (waterSplitMany n w fuel ds s).1.length = ds.length := by
  intro ds
  induction ds with
  | nil => intro s _; rfl
  | cons d ds ih =>
    intro s hok
    cases he : (waterSplitLoop n w fuel d s).2.2 with
    | some e =>
      simp only [waterSplitMany, he] at hok
      exact Option.noConfusion hok
    | none =>
      simp only [waterSplitMany, he] at hok ⊢
      simp [ih _ hok]

theorem waterSplitMany_spec (n : ℕ) (w : ℚ) (fuel : ℕ) (hw : 1 ≤ w) :
    ∀ (ds : List ℚ) (s : WaterState), (∀ d ∈ ds, 0 ≤ d) →
      (waterSplitMany n w fuel ds s).2.2 = none →
      List.Forall₂ (fun d ts => (∀ p ∈ ts, 0 < p.2 ∧ p.2 ≤ 19) ∧
        ((ts.map Prod.snd).sum = d)) ds (waterSplitMany n w fuel ds s).1 := by
  intro ds
  induction ds with
  | nil => intro s _ _; exact List.Forall₂.nil
  | cons d ds ih =>
    intro s hnn hok
    cases he : (waterSplitLoop n w fuel d s).2.2 with
    | some e =>
      simp only [waterSplitMany, he] at hok
      exact Option.noConfusion hok
    | none =>
      simp only [waterSplitMany, he] at hok ⊢
      refine List.Forall₂.cons ⟨waterSplitLoop_vols n w hw fuel d s, ?_⟩
        (ih _ (fun x hx => hnn x (List.mem_cons_of_mem _ hx)) hok)
      exact waterSplitLoop_sum n w fuel d s (hnn d (List.mem_cons_self _ _)) he

theorem waterSplitLoop_no_ranOut (n : ℕ) (w : ℚ) :
    ∀ (fuel : ℕ) (wvr R : ℚ) (s : WaterState), 0 ≤ wvr → 0 ≤ R →
      WaterInv n w s (wvr + R) →
      (waterSplitLoop n w fuel wvr s).2.2 ≠ some RunError.ranOutOfWaterTubes ∧
      ((waterSplitLoop n w fuel wvr s).2.2 = none →
        WaterInv n w (waterSplitLoop n w fuel wvr s).2.1 R) := by
  intro fuel
  induction fuel with
  | zero =>
    intro wvr R s h0 hR hinv
    by_cases h1 : wvr ≤ 0
    · have hz : wvr = 0 := le_antisymm h1 h0
      subst hz
      simp only [waterSplitLoop, if_pos le_rfl]
      exact ⟨by simp, fun _ => by simpa using hinv⟩
    · simp only [waterSplitLoop, if_neg h1]
      exact ⟨by simp, fun h => by simp at h⟩
  | succ fuel ih =>
    intro wvr R s h0 hR hinv
    by_cases h1 : wvr ≤ 0
    · have hz : wvr = 0 := le_antisymm h1 h0
      subst hz
      simp only [waterSplitLoop, if_pos le_rfl]
      exact ⟨by simp, fun _ => by simpa using hinv⟩
    · have h0lt : 0 < wvr := lt_of_not_le h1
      obtain ⟨hidx, hbud⟩ := hinv
      by_cases h2 : s.rem < 1
      · have h3 : ¬ n ≤ s.idx + 1 := by
          intro h3
          have hidx1 : s.idx = n - 1 := by omega
          have hz : (n - 1 - s.idx : ℕ) = 0 := by omega
          rw [hz] at hbud
          simp at hbud
          linarith
        simp only [waterSplitLoop, if_neg h1, if_pos h2, if_neg h3]
        have htle : min (min wvr w) 19 ≤ wvr := le_trans (min_le_left _ _) (min_le_left _ _)
        have hcast : ((n - 1 - s.idx : ℕ) : ℚ) = ((n - 1 - (s.idx + 1) : ℕ) : ℚ) + 1 := by
          have hk : (n - 1 - s.idx : ℕ) = (n - 1 - (s.idx + 1) : ℕ) + 1 := by omega
          rw [hk]; push_cast; ring
        rw [hcast] at hbud
        have hexp : (((n - 1 - (s.idx + 1) : ℕ) : ℚ) + 1) * (w - 1) =
            ((n - 1 - (s.idx + 1) : ℕ) : ℚ) * (w - 1) + (w - 1) := by ring
        have hinv1 : WaterInv n w ⟨s.idx + 1, w - min (min wvr w) 19⟩
            ((wvr - min (min wvr w) 19) + R) := by
          refine ⟨(by omega : s.idx + 1 < n), ?_⟩
          show (wvr - min (min wvr w) 19) + R + 1 ≤
            (w - min (min wvr w) 19) + ((n - 1 - (s.idx + 1) : ℕ) : ℚ) * (w - 1)
          linarith [hbud, hexp, h2]
        exact ih (wvr - min (min wvr w) 19) R ⟨s.idx + 1, w - min (min wvr w) 19⟩
          (by linarith) hR hinv1
      · simp only [waterSplitLoop, if_neg h1, if_neg h2]
        have htle : min (min wvr s.rem) 19 ≤ wvr := le_trans (min_le_left _ _) (min_le_left _ _)
        have hinv1 : WaterInv n w ⟨s.idx, s.rem - min (min wvr s.rem) 19⟩
            ((wvr - min (min wvr s.rem) 19) + R) := by
          refine ⟨hidx, ?_⟩
          show (wvr - min (min wvr s.rem) 19) + R + 1 ≤
            (s.rem - min (min wvr s.rem) 19) + ((n - 1 - s.idx : ℕ) : ℚ) * (w - 1)
          linarith
        exact ih (wvr - min (min wvr s.rem) 19) R ⟨s.idx, s.rem - min (min wvr s.rem) 19⟩
          (by linarith) hR hinv1

theorem waterSplitMany_no_ranOut (n : ℕ) (w : ℚ) (fuel : ℕ) :
    ∀ (ds : List ℚ) (s : WaterState), (∀ d ∈ ds, 0 ≤ d) →
      WaterInv n w s ds.sum →
      (waterSplitMany n w fuel ds s).2.2 ≠ some RunError.ranOutOfWaterTubes := by
  intro ds
  induction ds with
  | nil => intro s _ _; simp [waterSplitMany]
  | cons d ds ih =>
    intro s hnn hinv
    have hsum : (d :: ds).sum = d + ds.sum := by simp
    rw [hsum] at hinv
    have hloop := waterSplitLoop_no_ranOut n w fuel d ds.sum s
      (hnn d (List.mem_cons_self _ _))
      (List.sum_nonneg (fun x hx => hnn x (List.mem_cons_of_mem _ hx)))
      hinv
    cases he : (waterSplitLoop n w fuel d s).2.2 with
    | some e =>
      simp only [waterSplitMany, he]
      intro hcon
      have : e = RunError.ranOutOfWaterTubes := by
        injection hcon
      subst this
      exact hloop.1 he
    | none =>
      simp only [waterSplitMany, he]
      exact ih _ (fun x hx => hnn x (List.mem_cons_of_mem _ hx)) (hloop.2 he)

/-! Arithmetic facts about the tube bookkeeping. -/

theorem total_water_eq_sum (rows : List DilutionRow) :
    total_water rows = (rows.map DilutionRow.water_volume).sum := by
  induction rows with
  | nil => simp [total_water, wells_normal, wells_large_dilution]
  | cons r rs ih =>
    simp only [total_water, wells_normal, wells_large_dilution] at ih ⊢
    by_cases h : (200:ℚ) < r.sample_volume + r.water_volume
    · have h' : ¬ (r.sample_volume + r.water_volume ≤ 200) := not_le.mpr h
      simp [List.filter_cons, h, h']
      linarith [ih]
    · have h' : r.sample_volume + r.water_volume ≤ 200 := not_lt.mp h
      simp [List.filter_cons, h, h']
      linarith [ih]

theorem total_water_nonneg (rows : List DilutionRow)
    (hval : ∀ r ∈ rows, 0 ≤ r.water_volume) : 0 ≤ total_water rows := by
  rw [total_water_eq_sum]
  apply List.sum_nonneg
  intro x hx
  simp only [List.mem_map] at hx
  obtain ⟨r, hr, rfl⟩ := hx
  exact hval r hr

theorem num_water_tubes_pos (rows : List DilutionRow)
    (h0 : 0 ≤ total_water rows) : 0 < num_water_tubes rows := by
  unfold num_water_tubes
  have hc : (0:ℤ) < ⌈total_water_with_buffer rows / 1500⌉ := by
    apply Int.ceil_pos.mpr
    unfold total_water_with_buffer
    apply div_pos (by linarith) (by norm_num)
  omega

theorem water_per_tube_total (rows : List DilutionRow)
    (h0 : 0 ≤ total_water rows) :
    (num_water_tubes rows : ℚ) * water_per_tube rows = total_water rows + 50 := by
  have hn := num_water_tubes_pos rows h0
  have hne : (num_water_tubes rows : ℚ) ≠ 0 := Nat.cast_ne_zero.mpr (by omega)
  unfold water_per_tube total_water_with_buffer
  rw [mul_comm, div_mul_cancel₀ _ hne]

/-- One µL per tube is enough margin: the initial state of any pass whose
demand is at most the total water satisfies the invariant. -/
theorem init_WaterInv (rows : List DilutionRow)
    (h0 : 0 ≤ total_water rows) (h24 : num_water_tubes rows ≤ 24)
    (D : ℚ) (hD : D ≤ total_water rows) :
    WaterInv (num_water_tubes rows) (water_per_tube rows)
      ⟨0, water_per_tube rows⟩ D := by
  have hn := num_water_tubes_pos rows h0
  have hmul := water_per_tube_total rows h0
  refine ⟨hn, ?_⟩
  show D + 1 ≤ water_per_tube rows +
    ((num_water_tubes rows - 1 - 0 : ℕ) : ℚ) * (water_per_tube rows - 1)
  have hz : num_water_tubes rows - 1 - 0 = num_water_tubes rows - 1 := rfl
  rw [hz]
  have hc : ((num_water_tubes rows - 1 : ℕ) : ℚ) = (num_water_tubes rows : ℚ) - 1 := by
    have h1 : 1 ≤ num_water_tubes rows := hn
    push_cast [Nat.cast_sub h1]
    ring
  rw [hc]
  have h24q : (num_water_tubes rows : ℚ) ≤ 24 := by exact_mod_cast h24
  have hexp : ((num_water_tubes rows : ℚ) - 1) * (water_per_tube rows - 1) =
      (num_water_tubes rows : ℚ) * water_per_tube rows -
      (num_water_tubes rows : ℚ) - water_per_tube rows + 1 := by ring
  linarith [hmul, hexp, h24q, hD]

theorem sum_water_sublist_le (rows : List DilutionRow) (l : List DilutionRow)
    (hsub : l.Sublist rows) (hval : ∀ r ∈ rows, 0 ≤ r.water_volume) :
    (l.map DilutionRow.water_volume).sum ≤ total_water rows := by
  rw [total_water_eq_sum]
  apply List.Sublist.sum_le_sum (hsub.map _)
  intro x hx
  simp only [List.mem_map] at hx
  obtain ⟨r, hr, rfl⟩ := hx
  exact hval r hr

/-- Any water pass of a validated CSV whose rows form a subsequence of the
CSV rows never raises the ran-out-of-water-tubes error. -/
theorem pass_no_ranOut (rows : List DilutionRow) (fuel : ℕ)
    (hval : ∀ r ∈ rows, 0 ≤ r.water_volume)
    (htube : total_tubes_needed rows ≤ 24)
    (l : List DilutionRow) (hsub : l.Sublist rows) :
    (waterSplitMany (num_water_tubes rows) (water_per_tube rows) fuel
      (l.map DilutionRow.water_volume)
      ⟨0, water_per_tube rows⟩).2.2 ≠ some RunError.ranOutOfWaterTubes := by
  have h0 := total_water_nonneg rows hval
  have h24 : num_water_tubes rows ≤ 24 := by
    unfold total_tubes_needed at htube
    omega
  apply waterSplitMany_no_ranOut
  · intro d hd
    simp only [List.mem_map] at hd
    obtain ⟨r, hr, rfl⟩ := hd
    exact hval r (hsub.subset hr)
  · exact init_WaterInv rows h0 h24 _ (sum_water_sublist_le rows l hsub hval)

theorem wells_water_first_sublist (rows : List DilutionRow) :
    (wells_water_first rows).Sublist rows :=
  (List.filter_sublist _).trans (List.filter_sublist _)

theorem wells_water_after_sublist (rows : List DilutionRow) :
    (wells_water_after rows).Sublist rows :=
  (List.filter_sublist _).trans (List.filter_sublist _)

/-! Lemmas about the sample-splitting branch. -/

theorem sample_transfer_vols_bounds (s : ℚ) (hs : 19 < s) :
    ∀ v ∈ sample_transfer_vols s, 0 < v ∧ v ≤ 19 := by
  intro v hv
  have hs0 : (0:ℚ) < s := by linarith
  have hpos : (0:ℤ) < ⌈s / 19⌉ := Int.ceil_pos.mpr (by positivity)
  simp only [sample_transfer_vols, if_pos hs, List.mem_map, List.mem_range] at hv
  obtain ⟨i, hi, rfl⟩ := hv
  set m : ℕ := (⌈s / 19⌉).toNat with hm
  have hmz : ((m : ℤ) : ℚ) = ((⌈s / 19⌉ : ℤ) : ℚ) := by
    exact_mod_cast congrArg (fun z => ((z : ℤ) : ℚ)) (Int.toNat_of_nonneg hpos.le)
  have hcast : (m : ℚ) = ((⌈s / 19⌉ : ℤ) : ℚ) := by push_cast at hmz ⊢; exact hmz
  have hup : s ≤ 19 * m := by
    have h1 : s / 19 ≤ ((⌈s / 19⌉ : ℤ) : ℚ) := Int.le_ceil _
    rw [← hcast] at h1
    nlinarith
  have hlow : 19 * ((m : ℚ) - 1) < s := by
    have h2 : ((⌈s / 19⌉ : ℤ) : ℚ) < s / 19 + 1 := Int.ceil_lt_add_one _
    rw [← hcast] at h2
    nlinarith
  have h2z : (1:ℤ) < ⌈s / 19⌉ := by
    refine Int.lt_ceil.mpr ?_
    rw [lt_div_iff₀ (by norm_num : (0:ℚ) < 19)]
    push_cast
    linarith
  have hm2 : 2 ≤ m := by omega
  split_ifs with hlast
  · constructor <;> nlinarith [hup, hlow]
  · norm_num

theorem sample_transfer_vols_sum (s : ℚ) :
    (sample_transfer_vols s).sum = s := by
  by_cases hs : 19 < s
  · have hs0 : (0:ℚ) < s := by linarith
    have hpos : (0:ℤ) < ⌈s / 19⌉ := Int.ceil_pos.mpr (by positivity)
    simp only [sample_transfer_vols, if_pos hs]
    set m : ℕ := (⌈s / 19⌉).toNat with hm
    have hm1 : 0 < m := by omega
    obtain ⟨k, hk⟩ : ∃ k, m = k + 1 := ⟨m - 1, by omega⟩
    rw [hk, List.range_succ, List.map_append, List.sum_append]
    have hk1 : k + 1 - 1 = k := by omega
    simp only [hk1]
    have hmap : (List.range k).map
        (fun i => if i = k then s - (((k + 1 : ℕ) : ℚ) - 1) * 19 else (19:ℚ)) =
        List.replicate k (19:ℚ) := by
      rw [List.eq_replicate_iff]
      refine ⟨by simp, ?_⟩
      intro b hb
      simp only [List.mem_map, List.mem_range] at hb
      obtain ⟨i, hik, rfl⟩ := hb
      have hne : i ≠ k := Nat.ne_of_lt hik
      simp [hne]
    rw [hmap, List.sum_replicate]
    simp only [List.map_cons, List.map_nil, List.sum_cons, List.sum_nil, if_pos rfl]
    push_cast
    rw [nsmul_eq_mul]
    ring
  · simp [sample_transfer_vols, hs]

/-! Counting pick_up_tip commands. -/

theorem pickCount_append (a b : List Op) :
    pickCount (a ++ b) = pickCount a + pickCount b :=
  List.countP_append _ _ _

theorem pickCount_flatten (L : List (List Op)) :
    pickCount L.flatten = (L.map pickCount).sum := by
  induction L with
  | nil => rfl
  | cons x xs ih => simp [List.flatten_cons, pickCount_append, ih]

theorem pickCount_eq_zero_of (ops : List Op)
    (h : ∀ o ∈ ops, o ≠ Op.pick_up_tip) : pickCount ops = 0 := by
  unfold pickCount
  rw [List.countP_eq_zero]
  intro a ha
  simpa using h a ha

theorem mem_sample_split_ops (src dst : Loc) (mf mls msg : List Op) (s : ℚ) :
    ∀ o ∈ sample_split_ops src dst mf mls msg s,
      o ∈ mf ∨ o ∈ mls ∨ o ∈ msg ∨ ∃ v, o = Op.transfer v src dst := by
  intro o ho
  unfold sample_split_ops at ho
  split_ifs at ho with h
  · simp only [List.mem_flatten, List.mem_map] at ho
    obtain ⟨l, ⟨p, hp, rfl⟩, hol⟩ := ho
    simp only [List.mem_append] at hol
    rcases hol with (h1 | h2) | h3
    · split_ifs at h1 with hc
      · exact Or.inl h1
      · simp at h1
    · simp only [List.mem_singleton] at h2
      exact Or.inr (Or.inr (Or.inr ⟨p.2, h2⟩))
    · split_ifs at h3 with hc
      · exact Or.inr (Or.inl h3)
      · simp at h3
  · simp only [List.mem_append, List.mem_singleton] at ho
    rcases ho with (h1 | h2) | h3
    · exact Or.inl h1
    · exact Or.inr (Or.inr (Or.inr ⟨s, h2⟩))
    · exact Or.inr (Or.inr (Or.inl h3))

theorem pickCount_sample_split_ops (src dst : Loc) (mf mls msg : List Op) (s : ℚ)
    (hmf : ∀ o ∈ mf, o ≠ Op.pick_up_tip) (hmls : ∀ o ∈ mls, o ≠ Op.pick_up_tip)
    (hmsg : ∀ o ∈ msg, o ≠ Op.pick_up_tip) :
    pickCount (sample_split_ops src dst mf mls msg s) = 0 := by
  apply pickCount_eq_zero_of
  intro o ho
  rcases mem_sample_split_ops src dst mf mls msg s o ho with h | h | h | ⟨v, rfl⟩
  · exact hmf o h
  · exact hmls o h
  · exact hmsg o h
  · simp

/-! Net liquid accounting. -/

theorem netInto_cons_transfer (loc : Loc) (v : ℚ) (src dst : Loc) (rest : List Op) :
    netInto loc (Op.transfer v src dst :: rest) =
      ((if dst = loc then v else 0) - (if src = loc then v else 0)) + netInto loc rest :=
  rfl

theorem netInto_append (loc : Loc) (a b : List Op) :
    netInto loc (a ++ b) = netInto loc a + netInto loc b := by
  induction a with
  | nil => simp [netInto]
  | cons x xs ih =>
    cases x <;> simp only [List.cons_append, netInto, List.append_eq, ih] <;> ring

theorem netInto_flatten (loc : Loc) (L : List (List Op)) :
    netInto loc L.flatten = (L.map (netInto loc)).sum := by
  induction L with
  | nil => rfl
  | cons x xs ih => simp [List.flatten_cons, netInto_append, ih]

theorem netInto_single_transfer (loc : Loc) (v : ℚ) (src dst : Loc) :
    netInto loc [Op.transfer v src dst] =
      (if dst = loc then v else 0) - (if src = loc then v else 0) := by
  simp [netInto]

theorem netInto_mix (loc : Loc) (reps : ℕ) (v : ℚ) (at_ : Loc) :
    netInto loc [Op.mix reps v at_] = 0 := rfl

/-- The water transfers of one row all land in their target location. -/
theorem netInto_waterOps (dst : Loc) (ts : List (ℕ × ℚ))
    (hne : ∀ i, Loc.waterTube i ≠ dst) :
    netInto dst (ts.map (fun q => Op.transfer q.2 (.waterTube q.1) dst)) =
      (ts.map Prod.snd).sum := by
  induction ts with
  | nil => rfl
  | cons q qs ih =>
    simp [netInto_cons_transfer, ih, if_neg (hne q.1), add_comm]

theorem netInto_sample_split_ops (src dst : Loc) (mf mls msg : List Op) (s : ℚ)
    (hsrc : src ≠ dst) (hmf : netInto dst mf = 0) (hmls : netInto dst mls = 0)
    (hmsg : netInto dst msg = 0) :
    netInto dst (sample_split_ops src dst mf mls msg s) = s := by
  unfold sample_split_ops
  split_ifs with h
  · rw [netInto_flatten, List.map_map]
    have hcong : ∀ p ∈ (sample_transfer_vols s).enum,
        (netInto dst ∘ fun p : ℕ × ℚ =>
          (if p.1 = 0 then mf else []) ++ [Op.transfer p.2 src dst] ++
          (if p.1 = (sample_transfer_vols s).length - 1 then mls else [])) p = p.2 := by
      intro p _
      simp only [Function.comp_apply, netInto_append]
      have h1 : netInto dst (if p.1 = 0 then mf else []) = 0 := by
        split_ifs
        · exact hmf
        · rfl
      have h2 : netInto dst
          (if p.1 = (sample_transfer_vols s).length - 1 then mls else []) = 0 := by
        split_ifs
        · exact hmls
        · rfl
      rw [h1, h2, netInto_single_transfer, if_pos rfl, if_neg hsrc]
      ring
    rw [List.map_congr_left hcong, List.enum_map_snd]
    exact sample_transfer_vols_sum s
  · rw [netInto_append, netInto_append, hmf, hmsg, netInto_single_transfer,
      if_pos rfl, if_neg hsrc]
    ring

theorem pickCount_transfer_map {α : Type} (l : List α) (f : α → ℚ) (g h : α → Loc) :
    pickCount (l.map (fun x => Op.transfer (f x) (g x) (h x))) = 0 := by
  apply pickCount_eq_zero_of
  intro o ho
  simp only [List.mem_map] at ho
  obtain ⟨x, _, rfl⟩ := ho
  simp

theorem pickCount_flatten_zero (L : List (List Op)) (h : ∀ l ∈ L, pickCount l = 0) :
    pickCount L.flatten = 0 := by
  rw [pickCount_flatten]
  apply List.sum_eq_zero
  intro x hx
  simp only [List.mem_map] at hx
  obtain ⟨l, hl, rfl⟩ := hx
  exact h l hl

theorem pickCount_flatten_ones (L : List (List Op)) (h : ∀ l ∈ L, pickCount l = 1) :
    pickCount L.flatten = L.length := by
  induction L with
  | nil => rfl
  | cons x xs ih =>
    rw [List.flatten_cons, pickCount_append, h x (List.mem_cons_self _ _),
      ih (fun l hl => h l (List.mem_cons_of_mem _ hl)), List.length_cons]
    omega

theorem pickCount_pass1 (n : ℕ) (w : ℚ) (fuel start : ℕ) (L : List DilutionRow) :
    pickCount (pass1Ops n w fuel start L).1 = if L = [] then 0 else 1 := by
  unfold pass1Ops
  split_ifs with hL
  · rfl
  · simp only [pickCount_append]
    have h1 : pickCount [Op.pick_up_tip] = 1 := rfl
    have h2 : pickCount ((((waterSplitMany n w fuel (L.map DilutionRow.water_volume)
        ⟨0, w⟩).1.enum).map (fun p => p.2.map
          (fun q => Op.transfer q.2 (.waterTube q.1) (.dilutionTube (start + p.1))))).flatten) = 0 := by
      apply pickCount_flatten_zero
      intro l hl
      simp only [List.mem_map] at hl
      obtain ⟨p, _, rfl⟩ := hl
      exact pickCount_transfer_map _ _ _ _
    have h3 : pickCount (if (waterSplitMany n w fuel (L.map DilutionRow.water_volume)
        ⟨0, w⟩).2.2 = none then [Op.drop_tip] else []) = 0 := by
      split_ifs <;> rfl
    rw [h1, h2, h3]

theorem pickCount_pass2 (n : ℕ) (w : ℚ) (fuel : ℕ) (F : List DilutionRow) :
    pickCount (pass2Ops n w fuel F).1 = if F = [] then 0 else 1 := by
  unfold pass2Ops
  split_ifs with hF
  · rfl
  · simp only [pickCount_append]
    have h1 : pickCount [Op.pick_up_tip] = 1 := rfl
    have h2 : pickCount (((F.zip (waterSplitMany n w fuel (F.map DilutionRow.water_volume)
        ⟨0, w⟩).1).map (fun p => p.2.map
          (fun q => Op.transfer q.2 (.waterTube q.1) (destLoc p.1)))).flatten) = 0 := by
      apply pickCount_flatten_zero
      intro l hl
      simp only [List.mem_map] at hl
      obtain ⟨p, _, rfl⟩ := hl
      exact pickCount_transfer_map _ _ _ _
    have h3 : pickCount (if (waterSplitMany n w fuel (F.map DilutionRow.water_volume)
        ⟨0, w⟩).2.2 = none then [Op.drop_tip] else []) = 0 := by
      split_ifs <;> rfl
    rw [h1, h2, h3]

theorem pickCount_pass3RowOps (start i : ℕ) (r : DilutionRow) :
    pickCount (pass3RowOps start i r) = 1 := by
  unfold pass3RowOps
  simp only [pickCount_append]
  have h1 : pickCount [Op.pick_up_tip] = 1 := rfl
  have h2 : pickCount (sample_split_ops (srcLoc r) (Loc.dilutionTube (start + i))
      [Op.mix 10 (mix_before_volume r) (srcLoc r)]
      [Op.mix 10 (mix_after_volume r) (Loc.dilutionTube (start + i))]
      [Op.mix 10 (mix_after_volume r) (Loc.dilutionTube (start + i))]
      r.sample_volume) = 0 := by
    apply pickCount_sample_split_ops <;> intro o ho <;> simp at ho <;> simp [ho]
  have h3 : pickCount [Op.transfer 19 (Loc.dilutionTube (start + i)) (destLoc r),
      Op.transfer 19 (Loc.dilutionTube (start + i)) (destLoc r),
      Op.transfer 12 (Loc.dilutionTube (start + i)) (destLoc r), Op.drop_tip] = 0 := by
    apply pickCount_eq_zero_of
    intro o ho
    simp only [List.mem_cons, List.mem_singleton] at ho
    rcases ho with rfl | rfl | rfl | rfl | h
    · simp
    · simp
    · simp
    · simp
    · simp at h
  rw [h1, h2, h3]

theorem pickCount_pass4RowOps (r : DilutionRow) :
    pickCount (pass4RowOps r) = 1 := by
  unfold pass4RowOps
  simp only [pickCount_append]
  have h2 : pickCount (sample_split_ops (srcLoc r) (destLoc r)
      [Op.mix 10 (mix_before_volume r) (srcLoc r)]
      [Op.mix 10 (mix_after_volume r) (destLoc r)]
      [Op.mix 9 (mix_after_volume r) (destLoc r),
       Op.transfer (mix_after_volume r) (destLoc r) (destLoc r)]
      r.sample_volume) = 0 := by
    apply pickCount_sample_split_ops <;> intro o ho <;> simp at ho <;>
      first
      | (subst ho; simp)
      | (rcases ho with rfl | rfl <;> simp)
  have h1 : pickCount [Op.pick_up_tip] = 1 := rfl
  have h3 : pickCount [Op.drop_tip] = 0 := rfl
  rw [h1, h2, h3]

theorem pickCount_pass5RowOps (r : DilutionRow) :
    pickCount (pass5RowOps r) = 1 := by
  unfold pass5RowOps
  simp only [pickCount_append]
  have h2 : pickCount (sample_split_ops (srcLoc r) (destLoc r)
      [Op.mix 10 (mix_before_volume r) (srcLoc r)] [] []
      r.sample_volume) = 0 := by
    apply pickCount_sample_split_ops <;> intro o ho <;> simp at ho <;> simp [ho]
  have h1 : pickCount [Op.pick_up_tip] = 1 := rfl
  have h3 : pickCount [Op.drop_tip] = 0 := rfl
  rw [h1, h2, h3]

theorem pickCount_pass6RowOps (r : DilutionRow) (ts : List (ℕ × ℚ)) :
    pickCount (pass6RowOps r ts) = 1 := by
  unfold pass6RowOps
  simp only [pickCount_append]
  have h1 : pickCount [Op.pick_up_tip] = 1 := rfl
  have h2 : pickCount ((ts.enum.map (fun p =>
      [Op.transfer p.2.2 (.waterTube p.2.1) (destLoc r)] ++
      (if p.1 = ts.length - 1 then
        [Op.mix 9 (mix_after_volume r) (destLoc r),
         Op.transfer (mix_after_volume r) (destLoc r) (destLoc r)]
       else []))).flatten) = 0 := by
    apply pickCount_flatten_zero
    intro l hl
    simp only [List.mem_map] at hl
    obtain ⟨p, _, rfl⟩ := hl
    apply pickCount_eq_zero_of
    intro o ho
    simp only [List.mem_append, List.mem_singleton] at ho
    rcases ho with rfl | ho
    · simp
    · split_ifs at ho
      · simp only [List.mem_cons, List.mem_singleton] at ho
        rcases ho with rfl | rfl | h
        · simp
        · simp
        · simp at h
      · simp at ho
  have h3 : pickCount [Op.drop_tip] = 0 := rfl
  rw [h1, h2, h3]

/-! Error provenance and unfolding of the whole run. -/

theorem waterSplitLoop_err (n : ℕ) (w : ℚ) :
    ∀ (fuel : ℕ) (wvr : ℚ) (s : WaterState) (e : RunError),
      (waterSplitLoop n w fuel wvr s).2.2 = some e →
      e = RunError.ranOutOfWaterTubes ∨ e = RunError.outOfFuel := by
  intro fuel
  induction fuel with
  | zero =>
    intro wvr s e he
    by_cases h1 : wvr ≤ 0
    · simp [waterSplitLoop, h1] at he
    · simp only [waterSplitLoop, if_neg h1] at he
      injection he with he
      exact Or.inr he.symm
  | succ fuel ih =>
    intro wvr s e he
    by_cases h1 : wvr ≤ 0
    · simp [waterSplitLoop, h1] at he
    · by_cases h2 : s.rem < 1
      · by_cases h3 : n ≤ s.idx + 1
        · simp only [waterSplitLoop, if_neg h1, if_pos h2, if_pos h3] at he
          injection he with he
          exact Or.inl he.symm
        · simp only [waterSplitLoop, if_neg h1, if_pos h2, if_neg h3] at he
          exact ih _ _ e he
      · simp only [waterSplitLoop, if_neg h1, if_neg h2] at he
        exact ih _ _ e he

theorem waterSplitMany_err (n : ℕ) (w : ℚ) (fuel : ℕ) :
    ∀ (ds : List ℚ) (s : WaterState) (e : RunError),
      (waterSplitMany n w fuel ds s).2.2 = some e →
      e = RunError.ranOutOfWaterTubes ∨ e = RunError.outOfFuel := by
  intro ds
  induction ds with
  | nil =>
    intro s e he
    simp [waterSplitMany] at he
  | cons d ds ih =>
    intro s e he
    cases hl : (waterSplitLoop n w fuel d s).2.2 with
    | some e' =>
      simp only [waterSplitMany, hl] at he
      injection he with he
      subst he
      exact waterSplitLoop_err n w fuel d s _ hl
    | none =>
      simp only [waterSplitMany, hl] at he
      exact ih _ e he

theorem buildTrace_err (rows : List DilutionRow) (fuel : ℕ) (e : RunError)
    (he : (buildTrace rows fuel).2 = some e) :
    e = RunError.ranOutOfWaterTubes ∨ e = RunError.outOfFuel := by
  have pass1_err : ∀ (n : ℕ) (w : ℚ) (f start : ℕ) (L : List DilutionRow) (e' : RunError),
      (pass1Ops n w f start L).2 = some e' →
      e' = RunError.ranOutOfWaterTubes ∨ e' = RunError.outOfFuel := by
    intro n w f start L e' he'
    unfold pass1Ops at he'
    by_cases hL : L = []
    · rw [if_pos hL] at he'
      exact absurd he' (by simp)
    · rw [if_neg hL] at he'
      dsimp only at he'
      exact waterSplitMany_err n w f _ _ e' he'
  have pass2_err : ∀ (n : ℕ) (w : ℚ) (f : ℕ) (F : List DilutionRow) (e' : RunError),
      (pass2Ops n w f F).2 = some e' →
      e' = RunError.ranOutOfWaterTubes ∨ e' = RunError.outOfFuel := by
    intro n w f F e' he'
    unfold pass2Ops at he'
    by_cases hF : F = []
    · rw [if_pos hF] at he'
      exact absurd he' (by simp)
    · rw [if_neg hF] at he'
      dsimp only at he'
      exact waterSplitMany_err n w f _ _ e' he'
  have pass6_err : ∀ (n : ℕ) (w : ℚ) (f : ℕ) (A : List DilutionRow) (e' : RunError),
      (pass6Ops n w f A).2 = some e' →
      e' = RunError.ranOutOfWaterTubes ∨ e' = RunError.outOfFuel := by
    intro n w f A e' he'
    unfold pass6Ops at he'
    by_cases hA : A = []
    · rw [if_pos hA] at he'
      exact absurd he' (by simp)
    · rw [if_neg hA] at he'
      dsimp only at he'
      exact waterSplitMany_err n w f _ _ e' he'
  unfold buildTrace at he
  dsimp only at he
  cases h1 : (pass1Ops (num_water_tubes rows) (water_per_tube rows) fuel
      (dilution_tube_start_index rows) (wells_large_dilution rows)).2 with
  | some e1 =>
    simp only [h1] at he
    injection he with he
    subst he
    exact pass1_err _ _ _ _ _ _ h1
  | none =>
    simp only [h1] at he
    cases h2 : (pass2Ops (num_water_tubes rows) (water_per_tube rows) fuel
        (wells_water_first rows)).2 with
    | some e2 =>
      simp only [h2] at he
      injection he with he
      subst he
      exact pass2_err _ _ _ _ _ h2
    | none =>
      simp only [h2] at he
      exact pass6_err _ _ _ _ _ he

theorem parseAll_eq_none_iff (raws : List (List Cell)) :
    parseAll raws = none ↔ ∃ r ∈ raws, parseRow r = none := by
  induction raws with
  | nil => simp [parseAll]
  | cons r rs ih =>
    cases hr : parseRow r with
    | none =>
      constructor
      · intro _
        exact ⟨r, List.mem_cons_self _ _, hr⟩
      · intro _
        simp [parseAll, hr]
    | some d =>
      cases hrs : parseAll rs with
      | none =>
        constructor
        · intro _
          obtain ⟨x, hx, hxn⟩ := ih.mp hrs
          exact ⟨x, List.mem_cons_of_mem _ hx, hxn⟩
        · intro _
          simp [parseAll, hr, hrs]
      | some ds =>
        have hall : parseAll (r :: rs) = some (d :: ds) := by
          simp [parseAll, hr, hrs]
        constructor
        · intro h
          rw [hall] at h
          exact absurd h (by simp)
        · rintro ⟨x, hx, hxn⟩
          rcases List.mem_cons.mp hx with rfl | hx
          · rw [hr] at hxn
            exact absurd hxn (by simp)
          · have hnone : parseAll rs = none := ih.mpr ⟨x, hx, hxn⟩
            rw [hrs] at hnone
            exact absurd hnone (by simp)

theorem rowValid_iff (nsp ndp : ℤ) (r : DilutionRow) :
    rowValid nsp ndp r = true ↔
      (1 ≤ r.source_plate ∧ r.source_plate ≤ nsp ∧
       1 ≤ r.destination_plate ∧ r.destination_plate ≤ ndp ∧
       0 < r.sample_volume ∧ 0 ≤ r.water_volume ∧
       0 < r.initial_sample_volume) := by
  simp [rowValid, and_assoc]

/-- Once the CSV parses, the run is the validation gate followed by the
tube-capacity gate followed by the pipetting trace. -/
theorem runMultiPlate_parsed (nsp ndp : ℤ) (raws : List (List Cell)) (fuel : ℕ)
    (rows : List DilutionRow) (hp : parseAll raws = some rows) :
    runMultiPlate nsp ndp raws fuel =
      if rows.all (rowValid nsp ndp) then
        (if 24 < total_tubes_needed rows then ([], some RunError.tubeOverflow)
         else buildTrace rows fuel)
      else ([], some RunError.validationFailure) := by
  unfold runMultiPlate
  rw [hp]

/-- A completed run forces the validation and tube checks to have passed,
and the trace is then the pipetting trace of the parsed rows. -/
theorem runMultiPlate_ok (nsp ndp : ℤ) (raws : List (List Cell)) (fuel : ℕ)
    (rows : List DilutionRow) (hp : parseAll raws = some rows)
    (hok : (runMultiPlate nsp ndp raws fuel).2 = none) :
    rows.all (rowValid nsp ndp) = true ∧ total_tubes_needed rows ≤ 24 ∧
    runMultiPlate nsp ndp raws fuel = buildTrace rows fuel := by
  rw [runMultiPlate_parsed nsp ndp raws fuel rows hp] at hok ⊢
  by_cases h1 : rows.all (rowValid nsp ndp) = true
  · rw [if_pos h1] at hok ⊢
    by_cases h2 : 24 < total_tubes_needed rows
    · rw [if_pos h2] at hok
      exact absurd hok (by simp)
    · rw [if_neg h2] at hok ⊢
      exact ⟨h1, by omega, rfl⟩
  · rw [if_neg h1] at hok
    exact absurd hok (by simp)

/-- On a completed run the trace holds one pick_up_tip per tip of the
precomputed tip budget. -/
theorem pickCount_buildTrace (rows : List DilutionRow) (fuel : ℕ)
    (hok : (buildTrace rows fuel).2 = none) :
    pickCount (buildTrace rows fuel).1 = total_tips_needed rows := by
  unfold buildTrace at hok ⊢
  dsimp only at hok ⊢
  cases h1 : (pass1Ops (num_water_tubes rows) (water_per_tube rows) fuel
      (dilution_tube_start_index rows) (wells_large_dilution rows)).2 with
  | some e1 =>
    simp only [h1] at hok
    exact Option.noConfusion hok
  | none =>
    simp only [h1] at hok ⊢
    cases h2 : (pass2Ops (num_water_tubes rows) (water_per_tube rows) fuel
        (wells_water_first rows)).2 with
    | some e2 =>
      simp only [h2] at hok
      exact Option.noConfusion hok
    | none =>
      simp only [h2] at hok ⊢
      simp only [pickCount_append]
      rw [pickCount_pass1, pickCount_pass2]
      have h3 : pickCount (pass3Ops (dilution_tube_start_index rows)
          (wells_large_dilution rows)) = (wells_large_dilution rows).length := by
        unfold pass3Ops
        rw [pickCount_flatten_ones]
        · simp [List.enum_length]
        · intro l hl
          simp only [List.mem_map] at hl
          obtain ⟨p, _, rfl⟩ := hl
          exact pickCount_pass3RowOps _ _ _
      have h4 : pickCount ((wells_water_first rows).map pass4RowOps).flatten =
          (wells_water_first rows).length := by
        rw [pickCount_flatten_ones]
        · simp
        · intro l hl
          simp only [List.mem_map] at hl
          obtain ⟨r, _, rfl⟩ := hl
          exact pickCount_pass4RowOps r
      have h5 : pickCount ((wells_water_after rows).map pass5RowOps).flatten =
          (wells_water_after rows).length := by
        rw [pickCount_flatten_ones]
        · simp
        · intro l hl
          simp only [List.mem_map] at hl
          obtain ⟨r, _, rfl⟩ := hl
          exact pickCount_pass5RowOps r
      have h6 : pickCount (pass6Ops (num_water_tubes rows) (water_per_tube rows) fuel
          (wells_water_after rows)).1 = (wells_water_after rows).length := by
        unfold pass6Ops at hok ⊢
        by_cases hA : wells_water_after rows = []
        · rw [if_pos hA]
          simp [hA, pickCount]
        · rw [if_neg hA] at hok ⊢
          dsimp only at hok ⊢
          rw [pickCount_flatten_ones]
          · rw [List.length_map, List.length_zip,
              waterSplitMany_length _ _ _ _ _ hok, List.length_map, min_self]
          · intro l hl
            simp only [List.mem_map] at hl
            obtain ⟨p, _, rfl⟩ := hl
            exact pickCount_pass6RowOps _ _
      rw [h3, h4, h5, h6]
      unfold total_tips_needed
      rcases eq_or_ne (wells_large_dilution rows) [] with hL | hL <;>
        rcases eq_or_ne (wells_water_first rows) [] with hF | hF <;>
          simp [hL, hF] <;> omega

/-! The three flows partition the rows. -/

theorem flows_partition (rows : List DilutionRow) :
    (wells_large_dilution rows ++ wells_water_first rows ++
      wells_water_after rows).Perm rows := by
  have hlarge : wells_large_dilution rows =
      rows.filter (fun r => !(decide (r.sample_volume + r.water_volume ≤ 200))) := by
    unfold wells_large_dilution
    congr 1
    funext r
    rcases le_or_lt (r.sample_volume + r.water_volume) 200 with h | h
    · simp [h, not_lt.mpr h]
    · simp [h, not_le.mpr h]
  have hafter : wells_water_after rows =
      (wells_normal rows).filter (fun r => !(decide (5 ≤ r.water_volume))) := by
    unfold wells_water_after
    congr 1
    funext r
    rcases le_or_lt 5 r.water_volume with h | h
    · simp [h, not_lt.mpr h]
    · simp [h, not_le.mpr h]
  have hFA : (wells_water_first rows ++ wells_water_after rows).Perm
      (wells_normal rows) := by
    rw [hafter]
    exact List.filter_append_perm _ _
  have hNL : (wells_normal rows ++ wells_large_dilution rows).Perm rows := by
    rw [hlarge]
    exact List.filter_append_perm _ _
  rw [List.append_assoc]
  exact ((List.Perm.append_left _ hFA).trans List.perm_append_comm).trans hNL

theorem mem_wells_large_iff (rows : List DilutionRow) (r : DilutionRow)
    (hr : r ∈ rows) :
    r ∈ wells_large_dilution rows ↔ 200 < final_volume r := by
  simp [wells_large_dilution, List.mem_filter, hr, final_volume]

theorem mem_wells_water_first_iff (rows : List DilutionRow) (r : DilutionRow)
    (hr : r ∈ rows) :
    r ∈ wells_water_first rows ↔ (final_volume r ≤ 200 ∧ 5 ≤ r.water_volume) := by
  simp only [wells_water_first, wells_normal, List.mem_filter, hr, final_volume,
    decide_eq_true_eq, true_and]

theorem mem_wells_water_after_iff (rows : List DilutionRow) (r : DilutionRow)
    (hr : r ∈ rows) :
    r ∈ wells_water_after rows ↔ (final_volume r ≤ 200 ∧ r.water_volume < 5) := by
  simp only [wells_water_after, wells_normal, List.mem_filter, hr, final_volume,
    decide_eq_true_eq, true_and]

/-! Per-row liquid delivery. -/

theorem netInto_eq_zero_of (loc : Loc) (ops : List Op)
    (h : ∀ v src dst, Op.transfer v src dst ∈ ops → src ≠ loc ∧ dst ≠ loc) :
    netInto loc ops = 0 := by
  induction ops with
  | nil => rfl
  | cons o rest ih =>
    have hrest := ih (fun v src dst hm => h v src dst (List.mem_cons_of_mem _ hm))
    cases o with
    | transfer v src dst =>
      have hx := h v src dst (List.mem_cons_self _ _)
      rw [netInto_cons_transfer, if_neg hx.2, if_neg hx.1, hrest]
      ring
    | pick_up_tip => simpa [netInto] using hrest
    | drop_tip => simpa [netInto] using hrest
    | mix reps vol at_ => simpa [netInto] using hrest

theorem srcLoc_ne_destLoc (r : DilutionRow) : srcLoc r ≠ destLoc r := by
  simp [srcLoc, destLoc]

theorem dilutionTube_ne_destLoc (i : ℕ) (r : DilutionRow) :
    Loc.dilutionTube i ≠ destLoc r := by
  simp [destLoc]

theorem waterTube_ne_destLoc (i : ℕ) (r : DilutionRow) :
    Loc.waterTube i ≠ destLoc r := by
  simp [destLoc]

theorem transfersInto_append (loc : Loc) (a b : List Op) :
    transfersInto loc (a ++ b) = transfersInto loc a ++ transfersInto loc b :=
  List.filterMap_append _ _ _

/-- A large-dilution row's destination well receives exactly the
19 + 19 + 12 = 50 µL pushed from its reservoir tube, and nothing else. -/
theorem pass3RowOps_delivery (start i : ℕ) (r : DilutionRow) :
    transfersInto (destLoc r) (pass3RowOps start i r) =
      [(19, Loc.dilutionTube (start + i)), (19, Loc.dilutionTube (start + i)),
       (12, Loc.dilutionTube (start + i))] ∧
    netInto (destLoc r) (pass3RowOps start i r) = 50 := by
  constructor
  · unfold pass3RowOps
    rw [transfersInto_append, transfersInto_append]
    have h1 : transfersInto (destLoc r) [Op.pick_up_tip] = [] := rfl
    have h2 : transfersInto (destLoc r) (sample_split_ops (srcLoc r)
        (Loc.dilutionTube (start + i))
        [Op.mix 10 (mix_before_volume r) (srcLoc r)]
        [Op.mix 10 (mix_after_volume r) (Loc.dilutionTube (start + i))]
        [Op.mix 10 (mix_after_volume r) (Loc.dilutionTube (start + i))]
        r.sample_volume) = [] := by
      unfold transfersInto
      rw [List.filterMap_eq_nil_iff]
      intro o ho
      rcases mem_sample_split_ops _ _ _ _ _ _ o ho with h | h | h | ⟨v, rfl⟩
      · simp only [List.mem_singleton] at h
        subst h
        rfl
      · simp only [List.mem_singleton] at h
        subst h
        rfl
      · simp only [List.mem_singleton] at h
        subst h
        rfl
      · simp [dilutionTube_ne_destLoc]
    rw [h1, h2]
    simp [transfersInto, dilutionTube_ne_destLoc, destLoc]
  · unfold pass3RowOps
    rw [netInto_append, netInto_append]
    have h1 : netInto (destLoc r) [Op.pick_up_tip] = 0 := rfl
    have h2 : netInto (destLoc r) (sample_split_ops (srcLoc r)
        (Loc.dilutionTube (start + i))
        [Op.mix 10 (mix_before_volume r) (srcLoc r)]
        [Op.mix 10 (mix_after_volume r) (Loc.dilutionTube (start + i))]
        [Op.mix 10 (mix_after_volume r) (Loc.dilutionTube (start + i))]
        r.sample_volume) = 0 := by
      apply netInto_eq_zero_of
      intro v src dst hm
      rcases mem_sample_split_ops _ _ _ _ _ _ _ hm with h | h | h | ⟨v', he⟩
      · simp at h
      · simp at h
      · simp at h
      · injection he with hv hs hd
        subst hs
        subst hd
        exact ⟨srcLoc_ne_destLoc r, dilutionTube_ne_destLoc _ r⟩
    rw [h1, h2]
    simp [netInto, dilutionTube_ne_destLoc, destLoc]
    norm_num

/-- A water-first row's sample block delivers exactly the sample volume to
the destination well. -/
theorem netInto_pass4RowOps (r : DilutionRow) :
    netInto (destLoc r) (pass4RowOps r) = r.sample_volume := by
  unfold pass4RowOps
  rw [netInto_append, netInto_append]
  have h1 : netInto (destLoc r) [Op.pick_up_tip] = 0 := rfl
  have h3 : netInto (destLoc r) [Op.drop_tip] = 0 := rfl
  have h2 : netInto (destLoc r) (sample_split_ops (srcLoc r) (destLoc r)
      [Op.mix 10 (mix_before_volume r) (srcLoc r)]
      [Op.mix 10 (mix_after_volume r) (destLoc r)]
      [Op.mix 9 (mix_after_volume r) (destLoc r),
       Op.transfer (mix_after_volume r) (destLoc r) (destLoc r)]
      r.sample_volume) = r.sample_volume := by
    apply netInto_sample_split_ops
    · exact srcLoc_ne_destLoc r
    · rfl
    · rfl
    · simp [netInto]
  rw [h1, h2, h3]
  ring

/-- A water-after row's sample block delivers exactly the sample volume. -/
theorem netInto_pass5RowOps (r : DilutionRow) :
    netInto (destLoc r) (pass5RowOps r) = r.sample_volume := by
  unfold pass5RowOps
  rw [netInto_append, netInto_append]
  have h1 : netInto (destLoc r) [Op.pick_up_tip] = 0 := rfl
  have h3 : netInto (destLoc r) [Op.drop_tip] = 0 := rfl
  have h2 : netInto (destLoc r) (sample_split_ops (srcLoc r) (destLoc r)
      [Op.mix 10 (mix_before_volume r) (srcLoc r)] [] []
      r.sample_volume) = r.sample_volume := by
    apply netInto_sample_split_ops
    · exact srcLoc_ne_destLoc r
    · rfl
    · rfl
    · rfl
  rw [h1, h2, h3]
  ring

/-- A water-after row's water block delivers exactly the water it split. -/
theorem netInto_pass6RowOps (r : DilutionRow) (ts : List (ℕ × ℚ)) :
    netInto (destLoc r) (pass6RowOps r ts) = (ts.map Prod.snd).sum := by
  unfold pass6RowOps
  rw [netInto_append, netInto_append]
  have h1 : netInto (destLoc r) [Op.pick_up_tip] = 0 := rfl
  have h3 : netInto (destLoc r) [Op.drop_tip] = 0 := rfl
  have h2 : netInto (destLoc r) ((ts.enum.map (fun p =>
      [Op.transfer p.2.2 (.waterTube p.2.1) (destLoc r)] ++
      (if p.1 = ts.length - 1 then
        [Op.mix 9 (mix_after_volume r) (destLoc r),
         Op.transfer (mix_after_volume r) (destLoc r) (destLoc r)]
       else []))).flatten) = (ts.map Prod.snd).sum := by
    rw [netInto_flatten, List.map_map]
    have hcong : ∀ p ∈ ts.enum,
        (netInto (destLoc r) ∘ fun p : ℕ × ℕ × ℚ =>
          [Op.transfer p.2.2 (.waterTube p.2.1) (destLoc r)] ++
          (if p.1 = ts.length - 1 then
            [Op.mix 9 (mix_after_volume r) (destLoc r),
             Op.transfer (mix_after_volume r) (destLoc r) (destLoc r)]
           else [])) p = p.2.2 := by
      intro p _
      simp only [Function.comp_apply, netInto_append]
      have ha : netInto (destLoc r) [Op.transfer p.2.2 (.waterTube p.2.1) (destLoc r)] =
          p.2.2 := by
        rw [netInto_single_transfer, if_pos rfl, if_neg (waterTube_ne_destLoc _ r)]
        ring
      have hb : netInto (destLoc r) (if p.1 = ts.length - 1 then
          [Op.mix 9 (mix_after_volume r) (destLoc r),
           Op.transfer (mix_after_volume r) (destLoc r) (destLoc r)]
         else []) = 0 := by
        split_ifs
        · simp [netInto]
        · rfl
      rw [ha, hb]
      ring
    rw [List.map_congr_left hcong]
    have : (ts.enum.map (fun p : ℕ × ℕ × ℚ => p.2.2)) = ts.map Prod.snd := by
      have hm : (ts.enum.map (fun p : ℕ × ℕ × ℚ => p.2.2)) =
          (ts.enum.map Prod.snd).map Prod.snd := by
        rw [List.map_map]
        rfl
      rw [hm, List.enum_map_snd]
    rw [this]
  rw [h1, h2, h3]
  ring

theorem forall₂_map_zip {α β γ : Type} (f : α → γ) (P : γ → β → Prop) :
    ∀ (l : List α) (l' : List β), List.Forall₂ P (l.map f) l' →
      ∀ p ∈ l.zip l', P (f p.1) p.2 := by
  intro l
  induction l with
  | nil =>
    intro l' _ p hp
    simp at hp
  | cons a as ih =>
    intro l' hf p hp
    cases l' with
    | nil => simp at hp
    | cons b bs =>
      simp only [List.map_cons] at hf
      cases hf with
      | cons hab hrest =>
        simp only [List.zip_cons_cons, List.mem_cons] at hp
        rcases hp with rfl | hp
        · exact hab
        · exact ih bs hrest p hp

/-- math.ceil of a natural divided by 96 is the rounded-up integer
division. -/
theorem ceil_div_96 (t : ℕ) : (⌈(t:ℚ)/96⌉).toNat = (t + 95)/96 := by
  have hceil : ⌈(t:ℚ)/96⌉ = -((-(t:ℤ))/96) := by
    have hne : ⌊-((t:ℚ)/96)⌋ = -⌈(t:ℚ)/96⌉ := Int.floor_neg
    have harg : -((t:ℚ)/96) = (((-(t:ℤ)) : ℤ) : ℚ)/((96:ℕ) : ℚ) := by
      push_cast
      ring
    have hfl : ⌊-((t:ℚ)/96)⌋ = (-(t:ℤ))/((96:ℕ):ℤ) := by
      rw [harg]
      exact Rat.floor_intCast_div_natCast _ _
    omega
  rw [hceil]
  omega

theorem tip_racks_needed_eq (rows : List DilutionRow) :
    tip_racks_needed rows = (total_tips_needed rows + 95)/96 := by
  unfold tip_racks_needed
  exact ceil_div_96 _


theorem water_per_tube_ge_one (rows : List DilutionRow)
    (h0 : 0 ≤ total_water rows) : 1 ≤ water_per_tube rows := by
  have hn := num_water_tubes_pos rows h0
  have hnq : (0:ℚ) < (num_water_tubes rows : ℚ) := by exact_mod_cast hn
  have hTpos : (0:ℚ) < total_water_with_buffer rows / 1500 := by
    unfold total_water_with_buffer
    apply div_pos (by linarith) (by norm_num)
  have hceilnn : (0:ℤ) ≤ ⌈total_water_with_buffer rows / 1500⌉ :=
    (Int.ceil_pos.mpr hTpos).le
  have hcast : ((num_water_tubes rows : ℕ) : ℚ) =
      ((⌈total_water_with_buffer rows / 1500⌉ : ℤ) : ℚ) := by
    unfold num_water_tubes
    exact_mod_cast congrArg (fun z => ((z : ℤ) : ℚ)) (Int.toNat_of_nonneg hceilnn)
  have hlt : ((num_water_tubes rows : ℕ) : ℚ) <
      total_water_with_buffer rows / 1500 + 1 := by
    rw [hcast]
    exact Int.ceil_lt_add_one _
  unfold water_per_tube
  rw [le_div_iff₀ hnq, one_mul]
  have hT : (50:ℚ) ≤ total_water_with_buffer rows := by
    unfold total_water_with_buffer
    linarith
  have hdiv : total_water_with_buffer rows / 1500 + 1 ≤ total_water_with_buffer rows := by
    rw [div_add' _ _ _ (by norm_num : (1500:ℚ) ≠ 0), div_le_iff₀ (by norm_num : (0:ℚ) < 1500)]
    linarith
  linarith

/-- A pass of a validated CSV either completes or (in this embedding) runs
out of fuel; the ran-out-of-water-tubes branch is unreachable. -/
theorem pass_ranOut_free (rows : List DilutionRow) (fuel : ℕ)
    (hval : ∀ r ∈ rows, 0 ≤ r.water_volume)
    (htube : total_tubes_needed rows ≤ 24)
    (l : List DilutionRow) (hsub : l.Sublist rows) :
    (waterSplitMany (num_water_tubes rows) (water_per_tube rows) fuel
      (l.map DilutionRow.water_volume) ⟨0, water_per_tube rows⟩).2.2 = none ∨
    (waterSplitMany (num_water_tubes rows) (water_per_tube rows) fuel
      (l.map DilutionRow.water_volume) ⟨0, water_per_tube rows⟩).2.2 =
      some RunError.outOfFuel := by
  have hno := pass_no_ranOut rows fuel hval htube l hsub
  cases hres : (waterSplitMany (num_water_tubes rows) (water_per_tube rows) fuel
      (l.map DilutionRow.water_volume) ⟨0, water_per_tube rows⟩).2.2 with
  | none => exact Or.inl rfl
  | some e =>
    rcases waterSplitMany_err _ _ _ _ _ e hres with he | he
    · subst he
      exact absurd hres hno
    · subst he
      exact Or.inr rfl

theorem rowValid_false_iff (nsp ndp : ℤ) (r : DilutionRow) :
    rowValid nsp ndp r = false ↔
      (r.source_plate < 1 ∨ nsp < r.source_plate ∨ r.destination_plate < 1 ∨
       ndp < r.destination_plate ∨ r.sample_volume ≤ 0 ∨ r.water_volume < 0 ∨
       r.initial_sample_volume ≤ 0) := by
  rw [← Bool.not_eq_true, rowValid_iff]
  simp only [not_and_or, not_le, not_lt]

/-- Splitting a positive sample volume: every chunk is positive and at
most 19 µL, and the chunks sum to the sample volume. -/
theorem sample_vols_ok (s : ℚ) (hs : 0 < s) :
    (∀ v ∈ sample_transfer_vols s, 0 < v ∧ v ≤ 19) ∧
    (sample_transfer_vols s).sum = s := by
  refine ⟨?_, sample_transfer_vols_sum s⟩
  by_cases h : 19 < s
  · exact sample_transfer_vols_bounds s h
  · intro v hv
    simp only [sample_transfer_vols, if_neg h, List.mem_singleton] at hv
    subst hv
    exact ⟨hs, not_lt.mp h⟩

/-- A fully validated row list has nonnegative water volumes. -/
theorem all_valid_water_nonneg (nsp ndp : ℤ) (rows : List DilutionRow)
    (hval : rows.all (rowValid nsp ndp) = true) :
    ∀ r ∈ rows, 0 ≤ r.water_volume := by
  intro r hr
  have h := List.all_eq_true.mp hval r hr
  exact ((rowValid_iff nsp ndp r).mp h).2.2.2.2.2.1

/-- The pipetting trace of a validated CSV never aborts for lack of a
water tube. -/
theorem buildTrace_no_ranOut (rows : List DilutionRow) (fuel : ℕ)
    (hval : ∀ r ∈ rows, 0 ≤ r.water_volume)
    (htube : total_tubes_needed rows ≤ 24) :
    (buildTrace rows fuel).2 ≠ some RunError.ranOutOfWaterTubes := by
  have hp1 : (pass1Ops (num_water_tubes rows) (water_per_tube rows) fuel
      (dilution_tube_start_index rows) (wells_large_dilution rows)).2 ≠
      some RunError.ranOutOfWaterTubes := by
    unfold pass1Ops
    by_cases hL : wells_large_dilution rows = []
    · rw [if_pos hL]
      simp
    · rw [if_neg hL]
      dsimp only
      exact pass_no_ranOut rows fuel hval htube _ (List.filter_sublist _)
  have hp2 : (pass2Ops (num_water_tubes rows) (water_per_tube rows) fuel
      (wells_water_first rows)).2 ≠ some RunError.ranOutOfWaterTubes := by
    unfold pass2Ops
    by_cases hF : wells_water_first rows = []
    · rw [if_pos hF]
      simp
    · rw [if_neg hF]
      dsimp only
      exact pass_no_ranOut rows fuel hval htube _ (wells_water_first_sublist rows)
  have hp6 : (pass6Ops (num_water_tubes rows) (water_per_tube rows) fuel
      (wells_water_after rows)).2 ≠ some RunError.ranOutOfWaterTubes := by
    unfold pass6Ops
    by_cases hA : wells_water_after rows = []
    · rw [if_pos hA]
      simp
    · rw [if_neg hA]
      dsimp only
      exact pass_no_ranOut rows fuel hval htube _ (wells_water_after_sublist rows)
  intro he
  unfold buildTrace at he
  dsimp only at he
  cases h1 : (pass1Ops (num_water_tubes rows) (water_per_tube rows) fuel
      (dilution_tube_start_index rows) (wells_large_dilution rows)).2 with
  | some e1 =>
    simp only [h1] at he
    injection he with he
    subst he
    exact hp1 h1
  | none =>
    simp only [h1] at he
    cases h2 : (pass2Ops (num_water_tubes rows) (water_per_tube rows) fuel
        (wells_water_first rows)).2 with
    | some e2 =>
      simp only [h2] at he
      injection he with he
      subst he
      exact hp2 h2
    | none =>
      simp only [h2] at he
      exact hp6 he

/-- C1: whenever a required water or sample volume exceeds the 19 µL
per-transfer limit it is split into successive transfers, each strictly
positive and at most 19 µL, summing exactly to the required volume: the
water-distribution loop realizes each demanded water volume of a pass as
chunks with these bounds, and the sample-split branch realizes each
positive sample volume likewise. -/
theorem C1_volume_splitting (rows : List DilutionRow) (fuel : ℕ)
    (hval : ∀ r ∈ rows, 0 ≤ r.water_volume) :
    (∀ l : List DilutionRow, l.Sublist rows →
      (waterSplitMany (num_water_tubes rows) (water_per_tube rows) fuel
        (l.map DilutionRow.water_volume) ⟨0, water_per_tube rows⟩).2.2 = none →
      List.Forall₂ (fun d ts =>
          (∀ p ∈ ts, 0 < p.2 ∧ p.2 ≤ 19) ∧ ((ts.map Prod.snd).sum = d))
        (l.map DilutionRow.water_volume)
        (waterSplitMany (num_water_tubes rows) (water_per_tube rows) fuel
          (l.map DilutionRow.water_volume) ⟨0, water_per_tube rows⟩).1) ∧
    (∀ s : ℚ, 0 < s →
      (∀ v ∈ sample_transfer_vols s, 0 < v ∧ v ≤ 19) ∧
      (sample_transfer_vols s).sum = s) := by
  have hw : 1 ≤ water_per_tube rows :=
    water_per_tube_ge_one rows (total_water_nonneg rows hval)
  refine ⟨?_, fun s hs => sample_vols_ok s hs⟩
  intro l hsub hok
  apply waterSplitMany_spec _ _ fuel hw _ _ ?_ hok
  intro d hd
  obtain ⟨r, hr, rfl⟩ := List.mem_map.mp hd
  exact hval r (hsub.subset hr)

theorem C1_volume_splitting_witness :
    List.Forall₂ (fun d ts =>
        (∀ p ∈ ts, 0 < p.2 ∧ p.2 ≤ 19) ∧ ((ts.map Prod.snd).sum = d))
      (wRows.map DilutionRow.water_volume)
      (waterSplitMany (num_water_tubes wRows) (water_per_tube wRows) 30
        (wRows.map DilutionRow.water_volume) ⟨0, water_per_tube wRows⟩).1 ∧
    (∀ v ∈ sample_transfer_vols 45, 0 < v ∧ v ≤ 19) ∧
    (sample_transfer_vols 45).sum = 45 := by
  have h := C1_volume_splitting wRows 30 (by decide)
  exact ⟨h.1 wRows (List.Sublist.refl _) (by decide),
    (h.2 45 (by norm_num)).1, (h.2 45 (by norm_num)).2⟩

/-- C2: on a completed run the trace holds exactly total_tips_needed
pick_up_tip commands, total_tips_needed is the advertised sum over the
three flows, and tip_racks_needed is the rounded-up division of the tip
budget by the 96 tips of a rack. -/
theorem C2_tip_accounting (nsp ndp : ℤ) (raws : List (List Cell)) (fuel : ℕ)
    (rows : List DilutionRow) (hp : parseAll raws = some rows)
    (hok : (runMultiPlate nsp ndp raws fuel).2 = none) :
    pickCount (runMultiPlate nsp ndp raws fuel).1 = total_tips_needed rows ∧
    total_tips_needed rows =
      (if wells_large_dilution rows = [] then 0
       else 1 + (wells_large_dilution rows).length) +
      (if wells_water_first rows = [] then 0
       else 1 + (wells_water_first rows).length) +
      2 * (wells_water_after rows).length ∧
    tip_racks_needed rows = (total_tips_needed rows + 95) / 96 := by
  obtain ⟨hv, ht, heq⟩ := runMultiPlate_ok nsp ndp raws fuel rows hp hok
  rw [heq] at hok ⊢
  exact ⟨pickCount_buildTrace rows fuel hok, rfl, tip_racks_needed_eq rows⟩

theorem C2_tip_accounting_witness :
    pickCount (runMultiPlate 1 1 wCsv 30).1 = total_tips_needed wRows ∧
    total_tips_needed wRows =
      (if wells_large_dilution wRows = [] then 0
       else 1 + (wells_large_dilution wRows).length) +
      (if wells_water_first wRows = [] then 0
       else 1 + (wells_water_first wRows).length) +
      2 * (wells_water_after wRows).length ∧
    tip_racks_needed wRows = (total_tips_needed wRows + 95) / 96 :=
  C2_tip_accounting 1 1 wCsv 30 wRows (by decide) (by decide)

/-- C3: the run stops with the parse, validation or tube-capacity
ValueError exactly when a data row fails to parse, or violates one of the
validation bounds, or the required tubes exceed the 24-tube rack, and in
every such case the trace is still empty: no pipetting command has been
issued. -/
theorem C3_validation_gate (nsp ndp : ℤ) (raws : List (List Cell)) (fuel : ℕ) :
    (((runMultiPlate nsp ndp raws fuel).2 = some RunError.parseFailure ∨
      (runMultiPlate nsp ndp raws fuel).2 = some RunError.validationFailure ∨
      (runMultiPlate nsp ndp raws fuel).2 = some RunError.tubeOverflow) ↔
      ((∃ r ∈ raws, parseRow r = none) ∨
       (∃ rows, parseAll raws = some rows ∧
         ((∃ r ∈ rows, r.source_plate < 1 ∨ nsp < r.source_plate ∨
             r.destination_plate < 1 ∨ ndp < r.destination_plate ∨
             r.sample_volume ≤ 0 ∨ r.water_volume < 0 ∨
             r.initial_sample_volume ≤ 0) ∨
          24 < total_tubes_needed rows)))) ∧
    (((runMultiPlate nsp ndp raws fuel).2 = some RunError.parseFailure ∨
      (runMultiPlate nsp ndp raws fuel).2 = some RunError.validationFailure ∨
      (runMultiPlate nsp ndp raws fuel).2 = some RunError.tubeOverflow) →
      (runMultiPlate nsp ndp raws fuel).1 = []) := by
  cases hps : parseAll raws with
  | none =>
    have hrun : runMultiPlate nsp ndp raws fuel = ([], some RunError.parseFailure) := by
      unfold runMultiPlate
      rw [hps]
    rw [hrun]
    refine ⟨⟨fun _ => Or.inl ((parseAll_eq_none_iff raws).mp hps), fun _ => Or.inl rfl⟩,
      fun _ => rfl⟩
  | some rows =>
    have hnofail : ¬ ∃ r ∈ raws, parseRow r = none := by
      intro hc
      have := (parseAll_eq_none_iff raws).mpr hc
      rw [hps] at this
      exact Option.noConfusion this
    rw [runMultiPlate_parsed nsp ndp raws fuel rows hps]
    by_cases hv : rows.all (rowValid nsp ndp) = true
    · rw [if_pos hv]
      by_cases h24 : 24 < total_tubes_needed rows
      · rw [if_pos h24]
        refine ⟨⟨fun _ => Or.inr ⟨rows, rfl, Or.inr h24⟩,
          fun _ => Or.inr (Or.inr rfl)⟩, fun _ => rfl⟩
      · rw [if_neg h24]
        have hnogate : ¬ ((buildTrace rows fuel).2 = some RunError.parseFailure ∨
            (buildTrace rows fuel).2 = some RunError.validationFailure ∨
            (buildTrace rows fuel).2 = some RunError.tubeOverflow) := by
          rintro (hg | hg | hg) <;>
            rcases buildTrace_err rows fuel _ hg with h | h <;>
            exact RunError.noConfusion h
        refine ⟨⟨fun hg => absurd hg hnogate, ?_⟩, fun hg => absurd hg hnogate⟩
        rintro (hfail | ⟨rows', hps', hbad⟩)
        · exact absurd hfail hnofail
        · injection hps' with hps'
          subst hps'
          rcases hbad with ⟨r, hr, hbadr⟩ | hbad
          · have hvr := List.all_eq_true.mp hv r hr
            have hcond := (rowValid_iff nsp ndp r).mp hvr
            rcases hbadr with h | h | h | h | h | h | h <;>
              [exact absurd hcond.1 (not_le.mpr h);
               exact absurd hcond.2.1 (not_le.mpr h);
               exact absurd hcond.2.2.1 (not_le.mpr h);
               exact absurd hcond.2.2.2.1 (not_le.mpr h);
               exact absurd hcond.2.2.2.2.1 (not_lt.mpr h);
               exact absurd hcond.2.2.2.2.2.1 (not_le.mpr h);
               exact absurd hcond.2.2.2.2.2.2 (not_lt.mpr h)]
          · exact absurd hbad h24
    · rw [if_neg hv]
      have hex : ∃ r ∈ rows, rowValid nsp ndp r = false := by
        by_contra hall
        push_neg at hall
        apply hv
        rw [List.all_eq_true]
        intro r hr
        have := hall r hr
        exact eq_true_of_ne_false this
      obtain ⟨r, hr, hrf⟩ := hex
      refine ⟨⟨fun _ => Or.inr ⟨rows, rfl, Or.inl ⟨r, hr, ?_⟩⟩,
        fun _ => Or.inr (Or.inl rfl)⟩, fun _ => rfl⟩
      exact (rowValid_false_iff nsp ndp r).mp hrf

theorem C3_validation_gate_witness :
    (runMultiPlate 1 1 wBadCsv 30).2 = some RunError.validationFailure ∧
    (runMultiPlate 1 1 wBadCsv 30).1 = [] :=
  ⟨by decide, (C3_validation_gate 1 1 wBadCsv 30).2 (by decide)⟩

/-- C4: for every CSV that passes validation and the tube-capacity check,
the ValueError branch for running out of water tubes is unreachable, and
the 50 µL buffer arithmetic behind it holds: the water tubes jointly carry
the total water plus 50 µL across at most 24 tubes. -/
theorem C4_water_tube_margin (nsp ndp : ℤ) (raws : List (List Cell)) (fuel : ℕ)
    (rows : List DilutionRow) (hp : parseAll raws = some rows)
    (hval : rows.all (rowValid nsp ndp) = true)
    (htube : total_tubes_needed rows ≤ 24) :
    (runMultiPlate nsp ndp raws fuel).2 ≠ some RunError.ranOutOfWaterTubes ∧
    (num_water_tubes rows : ℚ) * water_per_tube rows = total_water rows + 50 ∧
    num_water_tubes rows ≤ 24 := by
  have hw : ∀ r ∈ rows, 0 ≤ r.water_volume := all_valid_water_nonneg nsp ndp rows hval
  have h0 := total_water_nonneg rows hw
  refine ⟨?_, water_per_tube_total rows h0, ?_⟩
  · rw [runMultiPlate_parsed nsp ndp raws fuel rows hp, if_pos hval,
      if_neg (not_lt.mpr htube)]
    exact buildTrace_no_ranOut rows fuel hw htube
  · unfold total_tubes_needed at htube
    omega

theorem C4_water_tube_margin_witness :
    (runMultiPlate 1 1 wCsv 30).2 ≠ some RunError.ranOutOfWaterTubes ∧
    (num_water_tubes wRows : ℚ) * water_per_tube wRows = total_water wRows + 50 ∧
    num_water_tubes wRows ≤ 24 :=
  C4_water_tube_margin 1 1 wCsv 30 wRows (by decide) (by decide) (by decide)


/-- C5: the three flows partition the validated rows — large iff the
final volume exceeds 200, otherwise water-first iff water is at least 5,
otherwise water-after — and the per-row delivery is exact: a large row's
destination well receives the three transfers of 19, 19 and 12 µL from
its reservoir tube, 50 µL in all, and a normal row's destination well
receives exactly sample volume plus water volume from its water transfers
and its sample block. -/
theorem C5_processing_flows (rows : List DilutionRow) (fuel : ℕ)
    (hval : ∀ r ∈ rows, 0 ≤ r.water_volume) :
    (wells_large_dilution rows ++ wells_water_first rows ++
      wells_water_after rows).Perm rows ∧
    (∀ r ∈ rows,
      (r ∈ wells_large_dilution rows ↔ 200 < final_volume r) ∧
      (r ∈ wells_water_first rows ↔ final_volume r ≤ 200 ∧ 5 ≤ r.water_volume) ∧
      (r ∈ wells_water_after rows ↔ final_volume r ≤ 200 ∧ r.water_volume < 5)) ∧
    (∀ (start i : ℕ) (r : DilutionRow),
      transfersInto (destLoc r) (pass3RowOps start i r) =
        [(19, Loc.dilutionTube (start + i)), (19, Loc.dilutionTube (start + i)),
         (12, Loc.dilutionTube (start + i))] ∧
      netInto (destLoc r) (pass3RowOps start i r) = 50) ∧
    ((waterSplitMany (num_water_tubes rows) (water_per_tube rows) fuel
        ((wells_water_first rows).map DilutionRow.water_volume)
        ⟨0, water_per_tube rows⟩).2.2 = none →
      ∀ p ∈ (wells_water_first rows).zip
          (waterSplitMany (num_water_tubes rows) (water_per_tube rows) fuel
            ((wells_water_first rows).map DilutionRow.water_volume)
            ⟨0, water_per_tube rows⟩).1,
        netInto (destLoc p.1)
          (p.2.map (fun q => Op.transfer q.2 (Loc.waterTube q.1) (destLoc p.1)) ++
            pass4RowOps p.1) = final_volume p.1) ∧
    ((waterSplitMany (num_water_tubes rows) (water_per_tube rows) fuel
        ((wells_water_after rows).map DilutionRow.water_volume)
        ⟨0, water_per_tube rows⟩).2.2 = none →
      ∀ p ∈ (wells_water_after rows).zip
          (waterSplitMany (num_water_tubes rows) (water_per_tube rows) fuel
            ((wells_water_after rows).map DilutionRow.water_volume)
            ⟨0, water_per_tube rows⟩).1,
        netInto (destLoc p.1) (pass5RowOps p.1 ++ pass6RowOps p.1 p.2) =
          final_volume p.1) := by
  have hw : 1 ≤ water_per_tube rows :=
    water_per_tube_ge_one rows (total_water_nonneg rows hval)
  refine ⟨flows_partition rows, ?_, ?_, ?_, ?_⟩
  · intro r hr
    exact ⟨mem_wells_large_iff rows r hr, mem_wells_water_first_iff rows r hr,
      mem_wells_water_after_iff rows r hr⟩
  · intro start i r
    exact pass3RowOps_delivery start i r
  · intro hok p hp
    have hnn : ∀ d ∈ (wells_water_first rows).map DilutionRow.water_volume, 0 ≤ d := by
      intro d hd
      obtain ⟨r, hr, rfl⟩ := List.mem_map.mp hd
      exact hval r ((wells_water_first_sublist rows).subset hr)
    have hspec := waterSplitMany_spec _ _ fuel hw _ _ hnn hok
    have hsum := (forall₂_map_zip DilutionRow.water_volume _ _ _ hspec p hp).2
    rw [netInto_append, netInto_waterOps _ _ (fun i => waterTube_ne_destLoc i p.1),
      hsum, netInto_pass4RowOps]
    unfold final_volume
    ring
  · intro hok p hp
    have hnn : ∀ d ∈ (wells_water_after rows).map DilutionRow.water_volume, 0 ≤ d := by
      intro d hd
      obtain ⟨r, hr, rfl⟩ := List.mem_map.mp hd
      exact hval r ((wells_water_after_sublist rows).subset hr)
    have hspec := waterSplitMany_spec _ _ fuel hw _ _ hnn hok
    have hsum := (forall₂_map_zip DilutionRow.water_volume _ _ _ hspec p hp).2
    rw [netInto_append, netInto_pass5RowOps, netInto_pass6RowOps, hsum]
    unfold final_volume
    ring

theorem C5_processing_flows_witness :
    (wells_large_dilution wRows ++ wells_water_first wRows ++
      wells_water_after wRows).Perm wRows ∧
    netInto (destLoc (⟨1, "A2", 1, "B2", 2, 1, 4⟩ : DilutionRow))
      (pass5RowOps ⟨1, "A2", 1, "B2", 2, 1, 4⟩ ++
        pass6RowOps ⟨1, "A2", 1, "B2", 2, 1, 4⟩ [(0, 1)]) =
      final_volume (⟨1, "A2", 1, "B2", 2, 1, 4⟩ : DilutionRow) := by
  have h := C5_processing_flows wRows 30 (by decide)
  exact ⟨h.1,
    h.2.2.2.2 (by decide) (⟨⟨1, "A2", 1, "B2", 2, 1, 4⟩, [(0, 1)]⟩) (by decide)⟩


end MultiPlate

namespace Zymo24

theorem num_sample_columns_eq (sc : ℕ) : num_sample_columns sc = (sc + 7)/8 := by
  unfold num_sample_columns
  have hceil : ⌈(sc:ℚ)/8⌉ = -((-(sc:ℤ))/8) := by
    have hne : ⌊-((sc:ℚ)/8)⌋ = -⌈(sc:ℚ)/8⌉ := Int.floor_neg
    have harg : -((sc:ℚ)/8) = (((-(sc:ℤ)) : ℤ) : ℚ)/((8:ℕ) : ℚ) := by
      push_cast
      ring
    have hfl : ⌊-((sc:ℚ)/8)⌋ = (-(sc:ℤ))/((8:ℕ):ℤ) := by
      rw [harg]
      exact Rat.floor_intCast_div_natCast _ _
    omega
  rw [hceil]
  omega

/-- For every realizable number of sample columns the run executes no
ctx.delay at all: the countdown loops use the empty two-argument
np.arange and the liquid-waste threshold is never reached. -/
theorem run24_delays_nil (nc : ℕ) (h1 : 1 ≤ nc) (h6 : nc ≤ 6) (dry : Bool) :
    delaysOf (run24 dry nc) = [] := by
  interval_cases nc <;> cases dry <;> decide

/-- For every realizable number of sample columns the tip events of the
run follow the reserved-tip pattern exactly, every picked column is one of
the 1 + 2 nc reserved columns, and all of those columns are used. -/
theorem run24_tip_discipline (nc : ℕ) (h1 : 1 ≤ nc) (h6 : nc ≤ 6) (dry : Bool) :
    tipEvents (run24 dry nc) = expectedTipEvents nc ∧
    (∀ c ∈ pickedCols (run24 dry nc), c < 1 + 2 * nc) ∧
    (pickedCols (run24 dry nc)).toFinset = Finset.range (1 + 2 * nc) := by
  interval_cases nc <;> cases dry <;> decide


/-- C10: for every sample count from 1 to 48, the run picks tips from the
reserved columns only: the trace's tip events follow the reserved pattern
— the reagent column picked and returned once per distribution, each
supernatant column returned through the binding step and the first three
washes and disposed in the final wash, each elution column returned once
and disposed once — every picked column index is below
1 + 2 * num_sample_columns, and all of those reserved columns are used,
so the remaining-tips pool is never touched. -/
theorem C10_reserved_tip_columns (sc : ℕ) (hsc1 : 1 ≤ sc) (hsc48 : sc ≤ 48)
    (dry : Bool) :
    tipEvents (run24 dry (num_sample_columns sc)) =
      expectedTipEvents (num_sample_columns sc) ∧
    (∀ c ∈ pickedCols (run24 dry (num_sample_columns sc)),
      c < 1 + 2 * num_sample_columns sc) ∧
    (pickedCols (run24 dry (num_sample_columns sc))).toFinset =
      Finset.range (1 + 2 * num_sample_columns sc) := by
  have h1 : 1 ≤ num_sample_columns sc := by
    rw [num_sample_columns_eq]
    omega
  have h6 : num_sample_columns sc ≤ 6 := by
    rw [num_sample_columns_eq]
    omega
  exact run24_tip_discipline _ h1 h6 dry

theorem C10_reserved_tip_columns_witness :
    tipEvents (run24 false (num_sample_columns 24)) =
      expectedTipEvents (num_sample_columns 24) ∧
    (∀ c ∈ pickedCols (run24 false (num_sample_columns 24)),
      c < 1 + 2 * num_sample_columns 24) ∧
    (pickedCols (run24 false (num_sample_columns 24))).toFinset =
      Finset.range (1 + 2 * num_sample_columns 24) :=
  C10_reserved_tip_columns 24 (by decide) (by decide) false


end Zymo24

/-- C8: in both Zymo Magbead scripts the dropped-tip counter triggers at
its threshold — 150 counted tips in the 48-sample tiptrack, 18 drop events
in the 24-sample drop_tips — pausing to have the tip waste emptied and
resetting the counter to zero, and in every case the counter is strictly
below the threshold once the operation completes. -/
theorem C8_tip_waste_counters :
    (∀ s : Zymo48.TipState,
      (Zymo48.tiptrack s).2.drop_count < 150 ∧
      (150 ≤ s.drop_count + 8 →
        (Zymo48.tiptrack s).1 =
          [Zymo48.Op.pickUpTip s.tip1k,
           Zymo48.Op.pause Zymo48.PauseMsg.emptyTipWaste] ∧
        (Zymo48.tiptrack s).2.drop_count = 0)) ∧
    (∀ dc : ℕ,
      (Zymo24.drop_tips dc).2 < 18 ∧
      (18 ≤ dc + 1 →
        (Zymo24.drop_tips dc).1 =
          [Zymo24.Op.dropTip, Zymo24.Op.pause Zymo24.PauseMsg.emptyTipWaste] ∧
        (Zymo24.drop_tips dc).2 = 0)) := by
  constructor
  · intro s
    unfold Zymo48.tiptrack
    by_cases h : 150 ≤ s.drop_count + 8
    · rw [if_pos h]
      exact ⟨by norm_num, fun _ => ⟨rfl, rfl⟩⟩
    · rw [if_neg h]
      refine ⟨?_, fun hc => absurd hc h⟩
      show s.drop_count + 8 < 150
      omega
  · intro dc
    unfold Zymo24.drop_tips
    by_cases h : 18 ≤ dc + 1
    · rw [if_pos h]
      exact ⟨by norm_num, fun _ => ⟨rfl, rfl⟩⟩
    · rw [if_neg h]
      refine ⟨?_, fun hc => absurd hc h⟩
      show dc + 1 < 18
      omega

theorem C8_tip_waste_counters_witness :
    (Zymo48.tiptrack ⟨0, 142⟩).2.drop_count < 150 ∧
    (Zymo48.tiptrack ⟨0, 142⟩).1 =
      [Zymo48.Op.pickUpTip 0, Zymo48.Op.pause Zymo48.PauseMsg.emptyTipWaste] ∧
    (Zymo48.tiptrack ⟨0, 142⟩).2.drop_count = 0 ∧
    (Zymo24.drop_tips 17).2 < 18 ∧
    (Zymo24.drop_tips 17).1 =
      [Zymo24.Op.dropTip, Zymo24.Op.pause Zymo24.PauseMsg.emptyTipWaste] ∧
    (Zymo24.drop_tips 17).2 = 0 := by
  obtain ⟨h48, h24⟩ := C8_tip_waste_counters
  obtain ⟨ha, hb⟩ := h48 ⟨0, 142⟩
  obtain ⟨hc, hd⟩ := h24 17
  have hb' := hb (by decide)
  have hd' := hd (by decide)
  exact ⟨ha, hb'.1, hb'.2, hc, hd'.1, hd'.2⟩

/-- C9: the 'empty liquid waste' pause of the 48-sample script never
occurs: no run, dry or wet, contains it, and the _waste_track helper that
would issue it reads an uninitialized accumulator, so a call could only
fail, never pause. -/
theorem C9_liquid_waste_pause_never :
    (∀ dry : Bool,
      Zymo48.Op.pause Zymo48.PauseMsg.emptyLiquidWaste ∉ Zymo48.run48 dry) ∧
    ∀ v : ℚ, Zymo48.waste_track none v = none := by
  refine ⟨?_, fun v => rfl⟩
  intro dry
  cases dry <;> decide

/-- C7: enabling dry run shortens or skips each timed delay of every
protocol exposing the toggle: with equal remaining inputs, the dry-run
delay sequence embeds into the wet sequence with every delay bounded by
the one it replaces. -/
theorem C7_dry_run_delays (m : ℚ) (hm : 1 ≤ m) (thermo : Bool) (nc : ℕ)
    (h1 : 1 ≤ nc) (h6 : nc ≤ 6) :
    LabRobots.Dominates (SelectASize.protocol_delays true m)
      (SelectASize.protocol_delays false m) ∧
    LabRobots.Dominates (LibraryPrep.protocol_delays true thermo)
      (LibraryPrep.protocol_delays false thermo) ∧
    LabRobots.Dominates (Zymo48.delaysOf (Zymo48.run48 true))
      (Zymo48.delaysOf (Zymo48.run48 false)) ∧
    LabRobots.Dominates (Zymo24.delaysOf (Zymo24.run24 true nc))
      (Zymo24.delaysOf (Zymo24.run24 false nc)) := by
  refine ⟨?_, ?_, ?_, ?_⟩
  · have hd : SelectASize.protocol_delays true m = [1/2, 1/2, 1/2, 1/2] := rfl
    have hw : SelectASize.protocol_delays false m = [5, m, 5, m] := rfl
    rw [hd, hw]
    refine ⟨[5, m, 5, m], List.Sublist.refl _, ?_⟩
    exact List.Forall₂.cons (by norm_num)
      (List.Forall₂.cons (by linarith)
        (List.Forall₂.cons (by norm_num)
          (List.Forall₂.cons (by linarith) List.Forall₂.nil)))
  · cases thermo <;> exact LabRobots.domB_sound _ _ (by decide)
  · exact LabRobots.domB_sound _ _ (by decide)
  · rw [Zymo24.run24_delays_nil nc h1 h6 true, Zymo24.run24_delays_nil nc h1 h6 false]
    exact LabRobots.dominates_refl []

theorem C7_dry_run_delays_witness :
    LabRobots.Dominates (SelectASize.protocol_delays true 5)
      (SelectASize.protocol_delays false 5) ∧
    LabRobots.Dominates (LibraryPrep.protocol_delays true true)
      (LibraryPrep.protocol_delays false true) ∧
    LabRobots.Dominates (Zymo48.delaysOf (Zymo48.run48 true))
      (Zymo48.delaysOf (Zymo48.run48 false)) ∧
    LabRobots.Dominates (Zymo24.delaysOf (Zymo24.run24 true 3))
      (Zymo24.delaysOf (Zymo24.run24 false 3)) :=
  C7_dry_run_delays 5 (by norm_num) true 3 (by decide) (by decide)
